import Mathlib

/-!
Verification of the CAN bus simulation core.

Shallow embedding of `can_bus_simulation.py` and `can_bus_attacks.py`:
frames, the priority-ordered virtual bus, the security manager
(encryption, authentication, rate limiting, anomaly detection), the
controller send/receive pipelines, and the three attack models.

Conventions of the embedding:
* timestamps and overheads are rationals (the Python code uses seconds
  as floats; every comparison the code performs is order-based, so the
  rational model is faithful);
* byte strings are lists of naturals (each entry a byte value);
* the wall-clock duration of a pipeline stage is not modelled: each
  stage reports overhead 0, which preserves the control flow and the
  bookkeeping structure (what is appended where) exactly;
* the AES block cipher and the HMAC function live outside this
  repository; they enter the model as explicit function parameters
  (a block permutation together with its inverse, and a MAC function),
  so every theorem about them quantifies over the cipher.
-/

/-! ## Frames (`CANFrame`, can_bus_simulation.py lines 29-37)

The Python dataclass is declared with `order=True`; comparison uses the
tuple of the fields without `compare=False`, which is
`(arbitration_id, data)`, and Python compares `bytes` values
lexicographically. -/

structure CANFrame where
  arbitration_id : ℕ
  data : List ℕ
  send_time : ℚ := 0
  length_bits : ℕ := 128
  source : String := ""
  encrypted : Bool := false
  authenticated : Bool := false
deriving DecidableEq, Repr

/-- The order generated by `@dataclass(order=True)`: by `arbitration_id`
first, then by the raw payload bytes lexicographically. -/
def frameLt (a b : CANFrame) : Prop :=
  a.arbitration_id < b.arbitration_id ∨
    (a.arbitration_id = b.arbitration_id ∧ List.Lex (· < ·) a.data b.data)

instance : DecidableRel frameLt := fun a b => by
  unfold frameLt; infer_instance

theorem frameLt_irrefl (a : CANFrame) : ¬ frameLt a a := by
  rintro (h | ⟨-, h⟩)
  · exact lt_irrefl _ h
  · exact (List.Lex.isAsymm (· < ·)).asymm _ _ h h

theorem frameLt_trans {a b c : CANFrame} (h₁ : frameLt a b) (h₂ : frameLt b c) :
    frameLt a c := by
  rcases h₁ with h₁ | ⟨e₁, l₁⟩ <;> rcases h₂ with h₂ | ⟨e₂, l₂⟩
  · exact Or.inl (h₁.trans h₂)
  · exact Or.inl (e₂ ▸ h₁)
  · exact Or.inl (e₁ ▸ h₂)
  · exact Or.inr ⟨e₁.trans e₂, IsTrans.trans _ _ _ l₁ l₂⟩

theorem frameLt_asymm {a b : CANFrame} (h : frameLt a b) : ¬ frameLt b a := by
  intro h'
  exact frameLt_irrefl a (frameLt_trans h h')

/-- Trichotomy: any two frames are comparable, with equality of the
compared key (`arbitration_id`, `data`) as the middle case. -/
theorem frameLt_trichotomy (a b : CANFrame) :
    frameLt a b ∨ (a.arbitration_id = b.arbitration_id ∧ a.data = b.data) ∨
      frameLt b a := by
  rcases Nat.lt_trichotomy a.arbitration_id b.arbitration_id with h | h | h
  · exact Or.inl (Or.inl h)
  · rcases ((List.Lex.isTrichotomous (· < ·)).trichotomous a.data b.data) with
      hl | hl | hl
    · exact Or.inl (Or.inr ⟨h, hl⟩)
    · exact Or.inr (Or.inl ⟨h, hl⟩)
    · exact Or.inr (Or.inr (Or.inr ⟨h.symm, hl⟩))
  · exact Or.inr (Or.inr (Or.inl h))

theorem frameLt_of_key_eq {a b c : CANFrame}
    (hid : a.arbitration_id = b.arbitration_id) (hd : a.data = b.data)
    (h : frameLt b c) : frameLt a c := by
  rcases h with h | ⟨e, l⟩
  · exact Or.inl (hid ▸ h)
  · exact Or.inr ⟨hid.trans e, hd ▸ l⟩

/-! ## The virtual bus queue (`VirtualCANBus`, lines 208-249)

`send` pushes the frame onto a binary heap (`heapq.heappush`), the
arbitration loop pops the least frame (`heapq.heappop`).  The queue is
modelled as the list of pending frames and `popMin` as the removal of a
least element with respect to `frameLt`, which is the observable
behaviour of the Python heap. -/

/-- Fold selecting a least pending frame (the element `heapq.heappop`
returns). -/
def minF (a : CANFrame) (l : List CANFrame) : CANFrame :=
  l.foldl (fun m x => if frameLt x m then x else m) a

/-- One step of the arbitration loop: remove a least pending frame. -/
def popMin : List CANFrame → Option (CANFrame × List CANFrame)
  | [] => none
  | h :: t => some (minF h t, (h :: t).erase (minF h t))

/-- Draining loop with explicit fuel (the loop runs once per pending
frame). -/
def drainFuel : ℕ → List CANFrame → List CANFrame
  | 0, _ => []
  | n + 1, q =>
    match popMin q with
    | none => []
    | some (f, r) => f :: drainFuel n r

/-- The sequence of frames in the order the bus dequeues them. -/
def drain (q : List CANFrame) : List CANFrame :=
  drainFuel q.length q

theorem minF_mem : ∀ (l : List CANFrame) (a : CANFrame), minF a l ∈ a :: l
  | [], a => by simp [minF]
  | x :: t, a => by
    have h := minF_mem t (if frameLt x a then x else a)
    have hstep : minF a (x :: t) = minF (if frameLt x a then x else a) t := by
      simp [minF]
    have ha' : (if frameLt x a then x else a) ∈ a :: x :: t := by
      by_cases hxa : frameLt x a <;> simp [hxa]
    rw [hstep]
    rcases List.mem_cons.mp h with h | h
    · rw [h]; exact ha'
    · exact List.mem_cons_of_mem _ (List.mem_cons_of_mem _ h)

theorem minF_min : ∀ (l : List CANFrame) (a : CANFrame),
    ∀ y ∈ a :: l, ¬ frameLt y (minF a l)
  | [], a => by
    intro y hy
    have : y = a := by simpa using hy
    subst this
    simpa [minF] using frameLt_irrefl y
  | x :: t, a => by
    intro y hy
    have hstep : minF a (x :: t) = minF (if frameLt x a then x else a) t := by
      simp [minF]
    rw [hstep]
    by_cases hxa : frameLt x a
    · rw [if_pos hxa]
      have ih := minF_min t x
      rcases List.mem_cons.mp hy with rfl | hy2
      · -- y is the old accumulator a; frameLt x a chains with any
        -- frameLt a (minF x t) to contradict the minimality below x.
        intro hcon
        exact ih x (List.mem_cons_self x t) (frameLt_trans hxa hcon)
      · rcases List.mem_cons.mp hy2 with rfl | hy3
        · exact ih y (List.mem_cons_self y t)
        · exact ih y (List.mem_cons_of_mem x hy3)
    · rw [if_neg hxa]
      have ih := minF_min t a
      rcases List.mem_cons.mp hy with rfl | hy2
      · exact ih y (List.mem_cons_self y t)
      · rcases List.mem_cons.mp hy2 with rfl | hy3
        · -- y is the dropped element x with ¬ frameLt x a; compare with a.
          intro hcon
          have haM : ¬ frameLt a (minF a t) := ih a (List.mem_cons_self a t)
          rcases frameLt_trichotomy y a with h | ⟨e1, e2⟩ | h
          · exact hxa h
          · exact haM (frameLt_of_key_eq e1.symm e2.symm hcon)
          · exact haM (frameLt_trans h hcon)
        · exact ih y (List.mem_cons_of_mem a hy3)

theorem popMin_spec {q : List CANFrame} {f : CANFrame} {r : List CANFrame}
    (h : popMin q = some (f, r)) :
    f ∈ q ∧ r = q.erase f ∧ (∀ y ∈ q, ¬ frameLt y f) := by
  match q with
  | [] => simp [popMin] at h
  | a :: t =>
    simp only [popMin, Option.some.injEq, Prod.mk.injEq] at h
    obtain ⟨rfl, rfl⟩ := h
    exact ⟨minF_mem t a, rfl, minF_min t a⟩

/-- The drained sequence is a permutation of the pending set and is
sorted: no later frame is `frameLt`-below an earlier one. -/
theorem drain_perm_sorted (q : List CANFrame) :
    (drain q).Perm q ∧ (drain q).Pairwise (fun u v => ¬ frameLt v u) := by
  suffices h : ∀ n q, List.length q ≤ n →
      (drainFuel n q).Perm q ∧
        (drainFuel n q).Pairwise (fun u v => ¬ frameLt v u) from
    h q.length q le_rfl
  intro n
  induction n with
  | zero =>
    intro q hq
    have : q = [] := List.eq_nil_of_length_eq_zero (Nat.le_zero.mp hq)
    subst this; simp [drainFuel]
  | succ n ih =>
    intro q hq
    match hpop : popMin q with
    | none =>
      match q with
      | [] => simp [drainFuel, hpop]
      | _ :: _ => simp [popMin] at hpop
    | some (f, r) =>
      obtain ⟨hf, hr, hmin⟩ := popMin_spec hpop
      have hperm : q.Perm (f :: r) := hr ▸ List.perm_cons_erase hf
      have hlen : r.length ≤ n := by
        have := hperm.length_eq
        simp at this
        omega
      obtain ⟨ihp, ihs⟩ := ih r hlen
      have heq : drainFuel (n + 1) q = f :: drainFuel n r := by
        simp [drainFuel, hpop]
      constructor
      · rw [heq]
        exact (ihp.cons f).trans hperm.symm
      · rw [heq]
        refine List.Pairwise.cons ?_ ihs
        intro y hy
        have hyr : y ∈ r := ihp.mem_iff.mp hy
        exact hmin y (hperm.symm.mem_iff.mp (List.mem_cons_of_mem f hyr))

/-- C1: frames are totally ordered by `arbitration_id` then payload
bytes (lexicographic), and whenever two pending frames are related by
that order the smaller one is dequeued by the bus strictly before the
larger one, regardless of the enqueue order (the statement quantifies
over every queue content `q`).  Every position `j` at which the larger
frame `b` is dequeued is preceded by a position `i < j` dequeuing `a`. -/
theorem bus_dequeue_respects_priority :
    (∀ a b : CANFrame, frameLt a b ∨
        (a.arbitration_id = b.arbitration_id ∧ a.data = b.data) ∨ frameLt b a) ∧
    (∀ (q : List CANFrame) (a b : CANFrame), a ∈ q → b ∈ q →
      (a.arbitration_id < b.arbitration_id ∨
        (a.arbitration_id = b.arbitration_id ∧ List.Lex (· < ·) a.data b.data)) →
      ∀ j : ℕ, (drain q)[j]? = some b → ∃ i, i < j ∧ (drain q)[i]? = some a) := by
  constructor
  · exact frameLt_trichotomy
  · intro q a b ha hb hab j hj
    have hlt : frameLt a b := hab
    obtain ⟨hperm, hsorted⟩ := drain_perm_sorted q
    have hmem : a ∈ drain q := hperm.mem_iff.mpr ha
    obtain ⟨i, hi, hia⟩ := List.mem_iff_getElem.mp hmem
    obtain ⟨hjlt, hjb⟩ := List.getElem?_eq_some_iff.mp hj
    refine ⟨i, ?_, List.getElem?_eq_some_iff.mpr ⟨hi, hia⟩⟩
    rcases Nat.lt_trichotomy i j with h | rfl | h
    · exact h
    · exact absurd (hia.symm.trans hjb ▸ hlt) (frameLt_irrefl b)
    · have := List.pairwise_iff_getElem.mp hsorted j i hjlt hi h
      rw [hjb, hia] at this
      exact absurd hlt this

/-- Concrete instantiation: two frames with ids 2 and 1 enqueued in
that order; the id-1 frame is dequeued first. -/
theorem bus_dequeue_respects_priority_witness :
    ∃ i, i < 1 ∧
      (drain [⟨2, [5], 0, 128, "", false, false⟩,
              ⟨1, [9], 0, 128, "", false, false⟩])[i]? =
        some ⟨1, [9], 0, 128, "", false, false⟩ :=
  bus_dequeue_respects_priority.2
    [⟨2, [5], 0, 128, "", false, false⟩, ⟨1, [9], 0, 128, "", false, false⟩]
    ⟨1, [9], 0, 128, "", false, false⟩ ⟨2, [5], 0, 128, "", false, false⟩
    (by decide) (by decide) (by decide) 1 (by decide)

/-! ## Security manager state (`SecurityManager.__init__`, lines 40-80)

Per-ID tables (`defaultdict`) are modelled as association lists with an
explicit default; `deque(maxlen=100)` is modelled by keeping the last
100 entries on append. -/

/-- Append on a `deque(maxlen=cap)`: keep the last `cap` entries. -/
def pushBounded (cap : ℕ) (l : List α) (x : α) : List α :=
  l.drop (l.length + 1 - cap) ++ [x]

/-- Read a `defaultdict` entry without inserting. -/
def lookupD (m : List (ℕ × α)) (k : ℕ) (d : α) : α :=
  match m.find? (fun p => p.1 == k) with
  | some p => p.2
  | none => d

/-- `dict.get`: an optional read. -/
def lookupO (m : List (ℕ × α)) (k : ℕ) : Option α :=
  (m.find? (fun p => p.1 == k)).map (fun p => p.2)

/-- Store a `defaultdict` entry. -/
def setD (m : List (ℕ × α)) (k : ℕ) (v : α) : List (ℕ × α) :=
  (k, v) :: m.eraseP (fun p => p.1 == k)

theorem lookupD_setD (m : List (ℕ × α)) (k : ℕ) (v : α) (d : α) :
    lookupD (setD m k v) k d = v := by
  simp [lookupD, setD, List.find?]

/-- The cumulative counters of `SecurityManager.stats`. -/
structure SecStats where
  attacks_detected : ℕ := 0
  attacks_blocked : ℕ := 0
  attacks_successful : ℕ := 0
  messages_encrypted : ℕ := 0
  messages_authenticated : ℕ := 0
  rate_limit_violations : ℕ := 0
  anomalies_detected : ℕ := 0
deriving DecidableEq, Repr

/-- A per-ID IDS baseline entry. -/
structure Baseline where
  count : ℕ := 0
  avg_interval : ℚ := 0
deriving DecidableEq, Repr

/-- `SecurityManager`: measure toggles, counters, the per-ID rate
windows and the IDS learning state. -/
structure SecurityManager where
  encryption : Bool := false
  authentication : Bool := false
  rate_limiting : Bool := false
  ids : Bool := false
  stats : SecStats := {}
  rate_windows : List (ℕ × List ℚ) := []
  rate_limit_threshold : ℕ := 20
  message_baseline : List (ℕ × Baseline) := []
  learning_phase : Bool := true
  learning_samples : List (ℕ × List ℚ) := []
deriving DecidableEq, Repr

/-- `SecurityManager.finish_learning` (lines 203-205). -/
def finish_learning (s : SecurityManager) : SecurityManager :=
  { s with learning_phase := false }

/-- Consecutive inter-arrival intervals of a timestamp list
(the Python list comprehension `samples[i] - samples[i-1]`). -/
def intervals (l : List ℚ) : List ℚ :=
  (l.zip l.tail).map (fun p => p.2 - p.1)

/-- `SecurityManager.check_rate_limit` (lines 141-159): append the
timestamp to the ID's window, count entries of the trailing second,
fail and count a violation when the count exceeds the threshold.
Returns (state, allowed, recent count). -/
def check_rate_limit (s : SecurityManager) (arb_id : ℕ) (now : ℚ) :
    SecurityManager × Bool × ℕ :=
  let w := pushBounded 100 (lookupD s.rate_windows arb_id []) now
  let recent := (w.filter (fun t => now - t < 1)).length
  let s' := { s with rate_windows := setD s.rate_windows arb_id w }
  if s.rate_limit_threshold < recent then
    ({ s' with stats :=
        { s'.stats with rate_limit_violations :=
            s'.stats.rate_limit_violations + 1 } }, false, recent)
  else
    (s', true, recent)

/-- `SecurityManager.check_anomaly` (lines 161-201): learning mode
collects samples and (re)computes the baseline at 20 or more samples;
detection mode compares the recent average inter-arrival interval of
the rate-limiting window against a third of the baseline interval.
Returns (state, allowed, metric). -/
def check_anomaly (s : SecurityManager) (arb_id : ℕ) (now : ℚ) :
    SecurityManager × Bool × ℚ :=
  if s.learning_phase then
    let samples := lookupD s.learning_samples arb_id [] ++ [now]
    let s' := { s with learning_samples := setD s.learning_samples arb_id samples }
    let s'' :=
      if 20 ≤ samples.length then
        let ivs := intervals samples
        let b : Baseline :=
          ⟨samples.length, if ivs.length = 0 then 0 else ivs.sum / ivs.length⟩
        { s' with message_baseline := setD s'.message_baseline arb_id b }
      else s'
    (s'', true, 0)
  else
    match lookupO s.message_baseline arb_id with
    | none => (s, true, 0)
    | some b =>
      if b.avg_interval = 0 then (s, true, 0)
      else
        let recent_times := (lookupD s.rate_windows arb_id []).filter
          (fun t => now - t < 1)
        if 2 < recent_times.length then
          let rivs := intervals recent_times
          let avg_recent := rivs.sum / rivs.length
          if avg_recent < b.avg_interval / 3 then
            ({ s with stats :=
                { s.stats with anomalies_detected :=
                    s.stats.anomalies_detected + 1 } }, false, avg_recent)
          else (s, true, 0)
        else (s, true, 0)

/-- Dropping a prefix of length `k` removes at most `k` entries from a
filter count. -/
theorem filter_drop_count_ge (p : α → Bool) (l : List α) (k : ℕ) :
    (l.filter p).length ≤ k + ((l.drop k).filter p).length := by
  conv_lhs => rw [← List.take_append_drop k l]
  rw [List.filter_append, List.length_append]
  have h1 : ((l.take k).filter p).length ≤ k :=
    le_trans (List.length_filter_le _ _) (by simp)
  omega

/-- C7: each rate-limit check appends the timestamp to the per-ID
window bounded at 100 entries, counts the entries of the trailing
second, and fails with a violation-counter increment exactly when that
count exceeds the threshold.  Consequently a window already holding
more than the threshold count of entries of the trailing second makes
the next check fail, and a window whose entries have all aged out
(1.0s or older) makes the check succeed without a violation. -/
theorem check_rate_limit_spec (s : SecurityManager) (arb_id : ℕ) (now : ℚ) :
    (lookupD (check_rate_limit s arb_id now).1.rate_windows arb_id [] =
        pushBounded 100 (lookupD s.rate_windows arb_id []) now ∧
      (pushBounded 100 (lookupD s.rate_windows arb_id []) now).length ≤
        max 100 (lookupD s.rate_windows arb_id []).length ∧
      ((check_rate_limit s arb_id now).2.1 = false ↔
        s.rate_limit_threshold <
          ((pushBounded 100 (lookupD s.rate_windows arb_id []) now).filter
            (fun t => now - t < 1)).length) ∧
      ((check_rate_limit s arb_id now).1.stats.rate_limit_violations =
        if s.rate_limit_threshold <
            ((pushBounded 100 (lookupD s.rate_windows arb_id []) now).filter
              (fun t => now - t < 1)).length
          then s.stats.rate_limit_violations + 1
          else s.stats.rate_limit_violations)) ∧
    ((lookupD s.rate_windows arb_id []).length ≤ 100 →
      s.rate_limit_threshold <
        (((lookupD s.rate_windows arb_id []).filter
          (fun t => now - t < 1))).length →
      (check_rate_limit s arb_id now).2.1 = false) ∧
    ((∀ t ∈ lookupD s.rate_windows arb_id [], 1 ≤ now - t) →
      1 ≤ s.rate_limit_threshold →
      (check_rate_limit s arb_id now).2.1 = true ∧
        (check_rate_limit s arb_id now).1.stats.rate_limit_violations =
          s.stats.rate_limit_violations) := by
  set w0 := lookupD s.rate_windows arb_id [] with hw0
  set w := pushBounded 100 w0 now with hw
  set recent := (w.filter (fun t => now - t < 1)).length with hrecent
  have hbranch :
      (check_rate_limit s arb_id now).1.rate_windows = setD s.rate_windows arb_id w ∧
      ((check_rate_limit s arb_id now).2.1 = false ↔ s.rate_limit_threshold < recent) ∧
      ((check_rate_limit s arb_id now).1.stats.rate_limit_violations =
        if s.rate_limit_threshold < recent then s.stats.rate_limit_violations + 1
        else s.stats.rate_limit_violations) := by
    by_cases h : s.rate_limit_threshold < recent <;>
      simp [check_rate_limit, ← hw0, ← hw, ← hrecent, h]
  refine ⟨⟨?_, ?_, hbranch.2.1, hbranch.2.2⟩, ?_, ?_⟩
  · rw [hbranch.1]; exact lookupD_setD _ _ _ _
  · rw [hw, pushBounded]
    rcases Nat.le_total w0.length 100 with h | h
    · have : w0.length + 1 - 100 ≤ w0.length := by omega
      simp [List.length_drop]
      omega
    · simp [List.length_drop]
      omega
  · intro hlen hcnt
    rw [hbranch.2.1]
    have hdrop := filter_drop_count_ge (fun t => now - t < 1) w0 (w0.length + 1 - 100)
    have hnow : ((fun t => now - t < 1) now : Bool) = true := by
      simp
    have : w.filter (fun t => now - t < 1) =
        (w0.drop (w0.length + 1 - 100)).filter (fun t => now - t < 1) ++ [now] := by
      rw [hw, pushBounded, List.filter_append]
      simp [hnow]
    rw [hrecent, this]
    simp only [List.length_append, List.length_cons, List.length_nil]
    have hk : w0.length + 1 - 100 ≤ 1 := by omega
    omega
  · intro hold hthr
    have hfil : w.filter (fun t => now - t < 1) = [now] := by
      rw [hw, pushBounded, List.filter_append]
      have h1 : (w0.drop (w0.length + 1 - 100)).filter (fun t => now - t < 1) = [] := by
        apply List.filter_eq_nil_iff.mpr
        intro t ht
        have : t ∈ w0 := List.mem_of_mem_drop ht
        have := hold t this
        simp
        linarith
      rw [h1]
      simp
    have hrec1 : recent = 1 := by rw [hrecent, hfil]; rfl
    have hnl : ¬ s.rate_limit_threshold < recent := by omega
    constructor
    · have := hbranch.2.1
      rcases h : (check_rate_limit s arb_id now).2.1 with _ | _
      · exact absurd (this.mp h) hnl
      · rfl
    · rw [hbranch.2.2, if_neg hnl]

/-- Witness for the rate-limit specification at a concrete state: an
empty window, id 5, time 0. -/
theorem check_rate_limit_spec_witness :
    ((∀ t ∈ lookupD ({} : SecurityManager).rate_windows 5 [], 1 ≤ (0 : ℚ) - t) ∧
      1 ≤ ({} : SecurityManager).rate_limit_threshold) ∧
    (check_rate_limit {} 5 0).2.1 = true := by
  refine ⟨⟨by decide, by norm_num⟩, ?_⟩
  exact ((check_rate_limit_spec {} 5 0).2.2 (by decide) (by norm_num)).1

/-- C10: once learning has ended, `check_anomaly` never writes the
per-ID rate window (or the learning samples); it only reads the window
that `check_rate_limit` populates.  For an ID whose window is empty
(never rate-checked), detection-mode `check_anomaly` leaves the whole
manager state unchanged, reports no anomaly and keeps the
anomalies-detected counter, no matter how many calls are made and at
which timestamps. -/
theorem check_anomaly_detection_reads_only_rate_window
    (s : SecurityManager) (arb_id : ℕ) (now : ℚ)
    (hl : s.learning_phase = false) :
    (check_anomaly s arb_id now).1.rate_windows = s.rate_windows ∧
    (check_anomaly s arb_id now).1.learning_samples = s.learning_samples ∧
    (lookupD s.rate_windows arb_id [] = [] →
      (check_anomaly s arb_id now).1 = s ∧
      (check_anomaly s arb_id now).2.1 = true ∧
      (check_anomaly s arb_id now).1.stats.anomalies_detected =
        s.stats.anomalies_detected ∧
      ∀ ts : List ℚ,
        ts.foldl (fun st t => (check_anomaly st arb_id t).1) s = s) := by
  have hstep : ∀ t : ℚ, lookupD s.rate_windows arb_id [] = [] →
      check_anomaly s arb_id t = (s, true, 0) := by
    intro t hw
    cases hb : lookupO s.message_baseline arb_id with
    | none => simp [check_anomaly, hl, hb]
    | some b =>
      by_cases hz : b.avg_interval = 0
      · simp [check_anomaly, hl, hb, hz]
      · simp [check_anomaly, hl, hb, hz, hw]
  have hfields : (check_anomaly s arb_id now).1.rate_windows = s.rate_windows ∧
      (check_anomaly s arb_id now).1.learning_samples = s.learning_samples := by
    cases hb : lookupO s.message_baseline arb_id with
    | none => simp [check_anomaly, hl, hb]
    | some b =>
      by_cases hz : b.avg_interval = 0
      · simp [check_anomaly, hl, hb, hz]
      · by_cases h2 : 2 < ((lookupD s.rate_windows arb_id []).filter
            (fun t => now - t < 1)).length
        · by_cases ha : (intervals ((lookupD s.rate_windows arb_id []).filter
              (fun t => now - t < 1))).sum /
                ((intervals ((lookupD s.rate_windows arb_id []).filter
                  (fun t => now - t < 1))).length : ℚ) < b.avg_interval / 3
          · simp [check_anomaly, hl, hb, hz, h2, ha]
          · simp [check_anomaly, hl, hb, hz, h2, ha]
        · simp [check_anomaly, hl, hb, hz, h2]
  refine ⟨hfields.1, hfields.2, ?_⟩
  intro hw
  refine ⟨by rw [hstep now hw], by rw [hstep now hw], by rw [hstep now hw], ?_⟩
  intro ts
  induction ts with
  | nil => rfl
  | cons t ts ih =>
    rw [List.foldl_cons]
    have : (check_anomaly s arb_id t).1 = s := by rw [hstep t hw]
    rw [this]
    exact ih

/-- Witness: a manager past learning with no rate-checked traffic on
id 7; the anomaly check at time 0 passes and changes nothing. -/
theorem check_anomaly_detection_reads_only_rate_window_witness :
    ({ learning_phase := false } : SecurityManager).learning_phase = false ∧
    lookupD ({ learning_phase := false } : SecurityManager).rate_windows 7 [] = [] ∧
    (check_anomaly { learning_phase := false } 7 0).2.1 = true := by
  refine ⟨rfl, rfl, ?_⟩
  exact ((check_anomaly_detection_reads_only_rate_window
    { learning_phase := false } 7 0 rfl).2.2 rfl).2.1

/-! ## Encryption (`SecurityManager.encrypt` / `decrypt`, lines 89-115)

The Python code runs AES-128 in CBC mode with PKCS#7 padding, a fresh
IV prepended to the ciphertext, and reports invalid whenever
`AES.new`, `decrypt` or `unpad` raises.  The block cipher itself is
library code, so the model is parameterised by the 16-byte block
permutation `E` and its inverse `D`; the CBC chaining, the padding and
the IV handling are translated from the source. -/

/-- Byte-wise XOR of two equal-length byte strings. -/
def xorBytes (a b : List ℕ) : List ℕ :=
  (a.zip b).map (fun p => p.1 ^^^ p.2)

/-- PKCS#7 padding to 16-byte blocks (`Crypto.Util.Padding.pad`). -/
def pad16 (d : List ℕ) : List ℕ :=
  d ++ List.replicate (16 - d.length % 16) (16 - d.length % 16)

/-- PKCS#7 unpadding (`Crypto.Util.Padding.unpad`); `none` models the
`ValueError` that `decrypt` catches. -/
def unpad16 (l : List ℕ) : Option (List ℕ) :=
  if l.length % 16 ≠ 0 then none
  else if l = [] then none
  else if l.getLastD 0 < 1 ∨ 16 < l.getLastD 0 ∨ l.length < l.getLastD 0 then
    none
  else if l.drop (l.length - l.getLastD 0) =
      List.replicate (l.getLastD 0) (l.getLastD 0) then
    some (l.take (l.length - l.getLastD 0))
  else none

/-- Split a byte string into 16-byte blocks; the fuel argument (one
unit per block, bounded by the length) keeps the recursion
structural. -/
def chunks16Fuel : ℕ → List ℕ → List (List ℕ)
  | 0, _ => []
  | _ + 1, [] => []
  | n + 1, a :: rest => (a :: rest).take 16 :: chunks16Fuel n ((a :: rest).drop 16)

/-- Split a byte string into 16-byte blocks. -/
def chunks16 (l : List ℕ) : List (List ℕ) :=
  chunks16Fuel l.length l

/-- CBC encryption of a block sequence with chaining value `prev`. -/
def cbcEnc (E : List ℕ → List ℕ) : List ℕ → List (List ℕ) → List (List ℕ)
  | _, [] => []
  | prev, b :: bs =>
    let c := E (xorBytes b prev)
    c :: cbcEnc E c bs

/-- CBC decryption of a block sequence with chaining value `prev`. -/
def cbcDec (D : List ℕ → List ℕ) : List ℕ → List (List ℕ) → List (List ℕ)
  | _, [] => []
  | prev, c :: cs => xorBytes (D c) prev :: cbcDec D c cs

/-- `SecurityManager.encrypt` payload transform: pad, CBC-encrypt,
prepend the IV. -/
def encryptBytes (E : List ℕ → List ℕ) (iv d : List ℕ) : List ℕ :=
  iv ++ (cbcEnc E iv (chunks16 (pad16 d))).flatten

/-- `SecurityManager.decrypt` payload transform: split off the IV,
CBC-decrypt, unpad; `none` is the caught-exception path (reported
invalid). -/
def decryptBytes (D : List ℕ → List ℕ) (data : List ℕ) : Option (List ℕ) :=
  if data.length < 16 then none
  else
    let iv := data.take 16
    let ct := data.drop 16
    if ct.length % 16 ≠ 0 then none
    else unpad16 (cbcDec D iv (chunks16 ct)).flatten

theorem xorBytes_length (a b : List ℕ) :
    (xorBytes a b).length = min a.length b.length := by
  simp [xorBytes]

theorem xorBytes_cancel : ∀ (a b : List ℕ), a.length = b.length →
    xorBytes (xorBytes a b) b = a
  | [], [], _ => rfl
  | x :: xs, y :: ys, h => by
    simp only [xorBytes, List.zip_cons_cons, List.map_cons] at *
    refine congrArg₂ _ ?_ (xorBytes_cancel xs ys (by simpa using h))
    exact Nat.xor_cancel_right y x

theorem chunks16Fuel_flatten :
    ∀ (n : ℕ) (l : List ℕ), l.length ≤ n → (chunks16Fuel n l).flatten = l := by
  intro n
  induction n with
  | zero =>
    intro l h
    have : l = [] := List.eq_nil_of_length_eq_zero (Nat.le_zero.mp h)
    subst this; rfl
  | succ n ih =>
    intro l h
    match l with
    | [] => rfl
    | a :: rest =>
      simp only [chunks16Fuel, List.flatten_cons]
      rw [ih ((a :: rest).drop 16)
        (by simp only [List.length_drop, List.length_cons] at *; omega)]
      exact List.take_append_drop 16 (a :: rest)

theorem chunks16_flatten (l : List ℕ) : (chunks16 l).flatten = l :=
  chunks16Fuel_flatten l.length l le_rfl

theorem chunks16Fuel_blocks :
    ∀ (n : ℕ) (l : List ℕ), l.length ≤ n → l.length % 16 = 0 →
      ∀ b ∈ chunks16Fuel n l, b.length = 16 := by
  intro n
  induction n with
  | zero => intro l h _ b hb; simp [chunks16Fuel] at hb
  | succ n ih =>
    intro l h hm b hb
    match l with
    | [] => simp [chunks16Fuel] at hb
    | a :: rest =>
      simp only [chunks16Fuel] at hb
      simp only [List.length_cons] at h hm
      rcases List.mem_cons.mp hb with rfl | hb
      · simp only [List.length_take, List.length_cons]
        omega
      · exact ih ((a :: rest).drop 16)
          (by simp only [List.length_drop, List.length_cons]; omega)
          (by simp only [List.length_drop, List.length_cons]; omega) b hb

theorem chunks16_blocks (l : List ℕ) (h : l.length % 16 = 0) :
    ∀ b ∈ chunks16 l, b.length = 16 :=
  chunks16Fuel_blocks l.length l le_rfl h

theorem chunks16Fuel_flatten_blocks :
    ∀ (n : ℕ) (bs : List (List ℕ)), (∀ b ∈ bs, b.length = 16) →
      bs.flatten.length ≤ n → chunks16Fuel n bs.flatten = bs := by
  intro n
  induction n with
  | zero =>
    intro bs h hl
    match bs with
    | [] => rfl
    | b :: bs =>
      have hb : b.length = 16 := h b (List.mem_cons_self b bs)
      simp only [List.flatten_cons, List.length_append, hb] at hl
      omega
  | succ n ih =>
    intro bs h hl
    match bs with
    | [] => rfl
    | b :: bs =>
      have hb : b.length = 16 := h b (List.mem_cons_self b bs)
      have hbs : ∀ x ∈ bs, x.length = 16 :=
        fun x hx => h x (List.mem_cons_of_mem b hx)
      match b, hb with
      | x :: xs, hb =>
        have hflat : ((x :: xs) :: bs).flatten = x :: (xs ++ bs.flatten) := by
          simp [List.flatten_cons]
        rw [hflat]
        simp only [chunks16Fuel]
        have hback : x :: (xs ++ bs.flatten) = (x :: xs) ++ bs.flatten := rfl
        rw [hback]
        have h16 : (16 : ℕ) = (x :: xs).length := hb.symm
        rw [h16, List.take_left, List.drop_left]
        rw [ih bs hbs ?_]
        have := hl
        simp only [List.flatten_cons, List.length_append, hb] at this ⊢
        omega

theorem chunks16_flatten_blocks (bs : List (List ℕ))
    (h : ∀ b ∈ bs, b.length = 16) : chunks16 bs.flatten = bs :=
  chunks16Fuel_flatten_blocks bs.flatten.length bs h le_rfl

theorem flatten_blocks_mod (bs : List (List ℕ)) (h : ∀ b ∈ bs, b.length = 16) :
    bs.flatten.length % 16 = 0 := by
  induction bs with
  | nil => simp
  | cons b bs ih =>
    have hb : b.length = 16 := h b (List.mem_cons_self b bs)
    have := ih (fun x hx => h x (List.mem_cons_of_mem b hx))
    simp only [List.flatten_cons, List.length_append, hb]
    omega

theorem cbcEnc_blocks (E : List ℕ → List ℕ)
    (hElen : ∀ b : List ℕ, b.length = 16 → (E b).length = 16) :
    ∀ (bs : List (List ℕ)) (prev : List ℕ), prev.length = 16 →
      (∀ b ∈ bs, b.length = 16) → ∀ c ∈ cbcEnc E prev bs, c.length = 16 := by
  intro bs
  induction bs with
  | nil => intro prev _ _ c hc; simp [cbcEnc] at hc
  | cons b bs ih =>
    intro prev hprev hblocks c hc
    have hb : b.length = 16 := hblocks b (List.mem_cons_self b bs)
    have hcb : (E (xorBytes b prev)).length = 16 :=
      hElen _ (by rw [xorBytes_length, hb, hprev]; simp)
    simp only [cbcEnc] at hc
    rcases List.mem_cons.mp hc with rfl | hc
    · exact hcb
    · exact ih _ hcb (fun x hx => hblocks x (List.mem_cons_of_mem b hx)) c hc

theorem cbcDec_cbcEnc (E D : List ℕ → List ℕ)
    (hED : ∀ b : List ℕ, b.length = 16 → D (E b) = b)
    (hElen : ∀ b : List ℕ, b.length = 16 → (E b).length = 16) :
    ∀ (bs : List (List ℕ)) (prev : List ℕ), prev.length = 16 →
      (∀ b ∈ bs, b.length = 16) → cbcDec D prev (cbcEnc E prev bs) = bs := by
  intro bs
  induction bs with
  | nil => intro prev _ _; rfl
  | cons b bs ih =>
    intro prev hprev hblocks
    have hb : b.length = 16 := hblocks b (List.mem_cons_self b bs)
    have hxlen : (xorBytes b prev).length = 16 := by
      rw [xorBytes_length, hb, hprev]; simp
    have hcb : (E (xorBytes b prev)).length = 16 := hElen _ hxlen
    simp only [cbcEnc, cbcDec]
    rw [hED _ hxlen, xorBytes_cancel b prev (hb.trans hprev.symm),
      ih _ hcb (fun x hx => hblocks x (List.mem_cons_of_mem b hx))]

theorem getLast?_replicate_succ (k v : ℕ) :
    (List.replicate (k + 1) v).getLast? = some v := by
  rw [List.replicate_succ']
  exact List.getLast?_concat _

theorem pad16_len (d : List ℕ) :
    (pad16 d).length = d.length + (16 - d.length % 16) := by
  simp [pad16]

theorem pad16_mod (d : List ℕ) : (pad16 d).length % 16 = 0 := by
  rw [pad16_len]
  omega

theorem pad16_getLast (d : List ℕ) :
    (pad16 d).getLast? = some (16 - d.length % 16) := by
  have h1 : 1 ≤ 16 - d.length % 16 := by omega
  rw [pad16, List.getLast?_append]
  have : 16 - d.length % 16 = (16 - d.length % 16 - 1) + 1 := by omega
  rw [this, getLast?_replicate_succ]
  rfl

theorem unpad16_pad16 (d : List ℕ) : unpad16 (pad16 d) = some d := by
  have hmod := pad16_mod d
  have hlen := pad16_len d
  have hlast := pad16_getLast d
  have hne : ¬ pad16 d = [] := by
    intro h
    have := congrArg List.length h
    rw [hlen] at this
    simp at this
    omega
  have hD : (pad16 d).getLastD 0 = 16 - d.length % 16 := by
    rw [List.getLastD_eq_getLast?, hlast]
    rfl
  rw [unpad16, if_neg (by omega), if_neg hne, hD,
    if_neg (by push_neg; exact ⟨by omega, by omega, by omega⟩)]
  have hsub : (pad16 d).length - (16 - d.length % 16) = d.length := by omega
  rw [hsub]
  have hdrop : (pad16 d).drop d.length =
      List.replicate (16 - d.length % 16) (16 - d.length % 16) := by
    rw [pad16]
    exact List.drop_left d _
  rw [if_pos hdrop]
  rw [pad16, List.take_left]

/-- Unpadding only inspects the tail: as long as the first 16 bytes are
some full block, the result is that block followed by the unpadded
tail. -/
theorem unpad16_append (X T : List ℕ) (hX : X.length = 16)
    (hT : 16 ≤ T.length) (n : ℕ) (hlast : T.getLast? = some n)
    (h1 : 1 ≤ n) (h16 : n ≤ 16) (hmod : T.length % 16 = 0)
    (hrep : T.drop (T.length - n) = List.replicate n n) :
    unpad16 (X ++ T) = some (X ++ T.take (T.length - n)) := by
  have hLen : (X ++ T).length = 16 + T.length := by simp [hX]
  have hTne : T ≠ [] := by
    intro h; subst h; simp at hT
  have hne : ¬ X ++ T = [] := by
    intro h
    have := congrArg List.length h
    rw [hLen] at this
    simp at this
  have hlast2 : (X ++ T).getLast? = some n := by
    rw [List.getLast?_append, hlast]
    rfl
  have hD : (X ++ T).getLastD 0 = n := by
    rw [List.getLastD_eq_getLast?, hlast2]
    rfl
  rw [unpad16, if_neg (by omega), if_neg hne, hD,
    if_neg (by push_neg; exact ⟨by omega, by omega, by omega⟩)]
  have hsub : (X ++ T).length - n = X.length + (T.length - n) := by omega
  rw [hsub, List.drop_append, List.take_append, if_pos hrep]

/-- C8 round trip: with any block cipher pair where decryption inverts
encryption on 16-byte blocks, decrypting an encryption returns the
original payload as valid. -/
theorem decryptBytes_encryptBytes (E D : List ℕ → List ℕ)
    (hED : ∀ b : List ℕ, b.length = 16 → D (E b) = b)
    (hElen : ∀ b : List ℕ, b.length = 16 → (E b).length = 16)
    (iv : List ℕ) (hiv : iv.length = 16) (d : List ℕ) :
    decryptBytes D (encryptBytes E iv d) = some d := by
  have hpadmod := pad16_mod d
  have hblocks : ∀ b ∈ chunks16 (pad16 d), b.length = 16 :=
    chunks16_blocks _ hpadmod
  have hct : ∀ c ∈ cbcEnc E iv (chunks16 (pad16 d)), c.length = 16 :=
    cbcEnc_blocks E hElen _ iv hiv hblocks
  have hctmod : (cbcEnc E iv (chunks16 (pad16 d))).flatten.length % 16 = 0 :=
    flatten_blocks_mod _ hct
  rw [encryptBytes, decryptBytes]
  rw [if_neg (by simp [hiv])]
  simp only
  have htake : (iv ++ (cbcEnc E iv (chunks16 (pad16 d))).flatten).take 16 = iv := by
    conv_lhs => rw [← hiv]
    exact List.take_left _ _
  have hdrop : (iv ++ (cbcEnc E iv (chunks16 (pad16 d))).flatten).drop 16 =
      (cbcEnc E iv (chunks16 (pad16 d))).flatten := by
    conv_lhs => rw [← hiv]
    exact List.drop_left _ _
  rw [htake, hdrop, if_neg (by omega)]
  rw [chunks16_flatten_blocks _ hct,
    cbcDec_cbcEnc E D hED hElen _ iv hiv hblocks,
    chunks16_flatten, unpad16_pad16]

/-- C8 correction core: altering a byte of the prepended IV garbles
only the first plaintext block; when the payload spans at least two
blocks the padding block is untouched, so decryption still reports
valid. -/
theorem decryptBytes_tampered_iv (E D : List ℕ → List ℕ)
    (hED : ∀ b : List ℕ, b.length = 16 → D (E b) = b)
    (hElen : ∀ b : List ℕ, b.length = 16 → (E b).length = 16)
    (iv : List ℕ) (hiv : iv.length = 16) (d : List ℕ) (hd : 16 ≤ d.length)
    (i : ℕ) (hi : i < 16) (v : ℕ) :
    (decryptBytes D ((encryptBytes E iv d).set i v)).isSome = true := by
  have hpadmod := pad16_mod d
  have hpadlen := pad16_len d
  have hpad32 : 32 ≤ (pad16 d).length := by
    rw [hpadlen]; omega
  have hblocks : ∀ b ∈ chunks16 (pad16 d), b.length = 16 :=
    chunks16_blocks _ hpadmod
  -- the padded plaintext splits into a head block and a nonempty tail
  match hch : chunks16 (pad16 d) with
  | [] =>
    exfalso
    have := chunks16_flatten (pad16 d)
    rw [hch] at this
    simp at this
    rw [this] at hpad32
    simp at hpad32
  | b₁ :: rest =>
    rw [hch] at hblocks
    have hb₁ : b₁.length = 16 := hblocks b₁ (List.mem_cons_self b₁ rest)
    have hrest : ∀ x ∈ rest, x.length = 16 :=
      fun x hx => hblocks x (List.mem_cons_of_mem b₁ hx)
    have hsplit : pad16 d = b₁ ++ rest.flatten := by
      have := chunks16_flatten (pad16 d)
      rw [hch] at this
      simpa [List.flatten_cons] using this.symm
    set T := rest.flatten with hTdef
    have hTlen : 16 ≤ T.length := by
      have : (pad16 d).length = 16 + T.length := by
        rw [hsplit]; simp [hb₁]
      omega
    have hTmod : T.length % 16 = 0 := by
      have : (pad16 d).length = 16 + T.length := by
        rw [hsplit]; simp [hb₁]
      omega
    -- ciphertext structure
    have hct : ∀ c ∈ cbcEnc E iv (b₁ :: rest), c.length = 16 := by
      rw [← hch]
      exact cbcEnc_blocks E hElen _ iv hiv (hch ▸ hblocks)
    have hctmod : (cbcEnc E iv (b₁ :: rest)).flatten.length % 16 = 0 :=
      flatten_blocks_mod _ hct
    -- tampering the IV region of iv ++ ct rewrites to (iv.set i v) ++ ct
    have hset : (encryptBytes E iv d).set i v =
        (iv.set i v) ++ (cbcEnc E iv (chunks16 (pad16 d))).flatten := by
      rw [encryptBytes]
      exact List.set_append_left i v (by omega)
    rw [hset, hch, decryptBytes]
    have hivlen : (iv.set i v).length = 16 := by simp [hiv]
    rw [if_neg (by simp [hivlen])]
    simp only
    have htake : ((iv.set i v) ++ (cbcEnc E iv (b₁ :: rest)).flatten).take 16 =
        iv.set i v := by
      conv_lhs => rw [← hivlen]
      exact List.take_left _ _
    have hdrop : ((iv.set i v) ++ (cbcEnc E iv (b₁ :: rest)).flatten).drop 16 =
        (cbcEnc E iv (b₁ :: rest)).flatten := by
      conv_lhs => rw [← hivlen]
      exact List.drop_left _ _
    rw [htake, hdrop, if_neg (by omega)]
    rw [chunks16_flatten_blocks _ hct]
    -- CBC decryption with the altered IV changes only the head block
    have hxlen : (xorBytes b₁ iv).length = 16 := by
      rw [xorBytes_length, hb₁, hiv]; simp
    have hclen : (E (xorBytes b₁ iv)).length = 16 := hElen _ hxlen
    have hdec : cbcDec D (iv.set i v) (cbcEnc E iv (b₁ :: rest)) =
        xorBytes (xorBytes b₁ iv) (iv.set i v) :: rest := by
      simp only [cbcEnc, cbcDec]
      rw [hED _ hxlen, cbcDec_cbcEnc E D hED hElen rest _ hclen hrest]
    rw [hdec]
    have hheadlen : (xorBytes (xorBytes b₁ iv) (iv.set i v)).length = 16 := by
      rw [xorBytes_length, hxlen, hivlen]; simp
    -- the unpadding facts about the untouched tail T
    have hn1 : 1 ≤ 16 - d.length % 16 := by omega
    have hn16 : 16 - d.length % 16 ≤ 16 := by omega
    have hTlast : T.getLast? = some (16 - d.length % 16) := by
      have h := pad16_getLast d
      rw [hsplit, List.getLast?_append] at h
      have hTne : T ≠ [] := by
        intro hnil
        rw [hnil] at hTlen
        simp at hTlen
      match hgl : T.getLast? with
      | none => exact absurd (List.getLast?_eq_none_iff.mp hgl) hTne
      | some m =>
        rw [hgl] at h
        simpa using h
    have hTrep : T.drop (T.length - (16 - d.length % 16)) =
        List.replicate (16 - d.length % 16) (16 - d.length % 16) := by
      have hPlen : (pad16 d).length = 16 + T.length := by
        rw [hsplit]; simp [hb₁]
      obtain ⟨n0, hn0⟩ : ∃ n0, n0 = 16 - d.length % 16 := ⟨_, rfl⟩
      rw [← hn0]
      have hdroppad : (pad16 d).drop d.length = List.replicate n0 n0 := by
        rw [pad16, ← hn0]
        exact List.drop_left d _
      have hidx : d.length = b₁.length + (T.length - n0) := by omega
      rw [hsplit, hidx, List.drop_append] at hdroppad
      exact hdroppad
    have := unpad16_append (xorBytes (xorBytes b₁ iv) (iv.set i v)) T
      hheadlen hTlen (16 - d.length % 16) hTlast hn1 hn16 hTmod hTrep
    rw [List.flatten_cons, this]
    rfl

/-! ## Authentication (`add_hmac` / `verify_hmac`, lines 117-139)

The MAC is a keyed hash owned by library code; the model takes the MAC
function as a parameter.  `verify_hmac` splits the last 32 bytes off
and compares them with the recomputed MAC over the rest. -/

/-- `SecurityManager.add_hmac` payload transform. -/
def add_hmac_bytes (mac : List ℕ → List ℕ) (d : List ℕ) : List ℕ :=
  d ++ mac d

/-- `SecurityManager.verify_hmac`: returns the message (payload with
the MAC stripped) and the comparison verdict. -/
def verify_hmac_bytes (mac : List ℕ → List ℕ) (d : List ℕ) : List ℕ × Bool :=
  (d.take (d.length - 32),
    d.drop (d.length - 32) == mac (d.take (d.length - 32)))

/-! ## Controller state (`CANController`, lines 252-387) -/

/-- Health values of a controller (the source strings `healthy`,
`warning`, `compromised`). -/
inductive Health where
  | healthy
  | warning
  | compromised
deriving DecidableEq, Repr

/-- The kind tag of an entry of `attack_events` (dictionaries in the
source; the rate-limit entry carries the measured rate). -/
inductive AttackEventType where
  | rate_limit_violation (rate : ℕ)
  | anomaly_detected
  | authentication_failed
  | decryption_failed
deriving DecidableEq, Repr

/-- One entry of a controller's `attack_events`. -/
structure AttackEvent where
  time : ℚ
  etype : AttackEventType
  arb_id : ℕ
deriving DecidableEq, Repr

/-- One entry of a controller's `log`. -/
structure LogEntry where
  time : ℚ
  arb_id : ℕ
  latency : ℚ
  security_overhead : ℚ
  source : String
deriving DecidableEq, Repr

/-- Controller state. -/
structure CANController where
  name : String := ""
  subscriptions : List ℕ := []
  log : List LogEntry := []
  health_status : Health := Health.healthy
  attack_events : List AttackEvent := []
  latency_history : List ℚ := []
  security_overhead_history : List ℚ := []
deriving DecidableEq, Repr

/-- Critical CAN IDs (brakes), simulation module constants. -/
def CRITICAL_IDS : List ℕ := [0x0A0, 0x0A1]

/-- Safety CAN IDs (steering and ABS). -/
def SAFETY_IDS : List ℕ := [0x0C0, 0x0C1]

/-- Latency threshold for critical IDs, milliseconds. -/
def LATENCY_CRITICAL : ℚ := 10

/-- Latency threshold for safety IDs, milliseconds. -/
def LATENCY_SAFETY : ℚ := 20

/-- Tail of `CANController.send` after the rate-limit gate: the IDS
check (detection only), the overhead-history append and the handoff of
the frame to the bus (lines 309-321). -/
def send_tail (c : CANController) (s : SecurityManager) (f : CANFrame)
    (now : ℚ) : CANController × SecurityManager × Option CANFrame :=
  let p :=
    if s.ids then
      let r := check_anomaly s f.arbitration_id now
      if r.2.1 then (c, r.1)
      else
        ({ c with attack_events := c.attack_events ++
            [⟨now, AttackEventType.anomaly_detected, f.arbitration_id⟩] }, r.1)
    else (c, s)
  ({ p.1 with security_overhead_history :=
      pushBounded 1000 p.1.security_overhead_history 0 }, p.2, some f)

/-- Rate-limit gate of `CANController.send` (lines 297-307) followed
by the tail: a failed check appends a `rate_limit_violation` event and
returns without touching the bus or the overhead history. -/
def send_gate (c : CANController) (s1 : SecurityManager) (f1 : CANFrame)
    (now : ℚ) : CANController × SecurityManager × Option CANFrame :=
  if s1.rate_limiting then
    let r := check_rate_limit s1 f1.arbitration_id now
    if r.2.1 then send_tail c r.1 f1 now
    else
      ({ c with attack_events := c.attack_events ++
          [⟨now, AttackEventType.rate_limit_violation r.2.2, f1.arbitration_id⟩] },
       r.1, none)
  else send_tail c s1 f1 now

/-- Stamp and crypto stages of `CANController.send` (lines 280-295):
set the send time and source, then apply encryption and the MAC when
the measures are enabled (each also bumps its message counter). -/
def send_crypto (E mac : List ℕ → List ℕ) (iv : List ℕ)
    (c : CANController) (s : SecurityManager) (f : CANFrame) (now : ℚ) :
    CANFrame × SecurityManager :=
  let f0 := { f with send_time := now, source := c.name }
  let p1 :=
    if s.encryption then
      ({ f0 with data := encryptBytes E iv f0.data, encrypted := true },
       { s with stats := { s.stats with
          messages_encrypted := s.stats.messages_encrypted + 1 } })
    else (f0, s)
  if p1.2.authentication then
    ({ p1.1 with data := add_hmac_bytes mac p1.1.data, authenticated := true },
     { p1.2 with stats := { p1.2.stats with
        messages_authenticated := p1.2.stats.messages_authenticated + 1 } })
  else p1

/-- `CANController.send` (lines 278-321): stamp the frame, apply
encryption then authentication (when enabled), then the rate-limit
gate (a failure drops the frame and returns early), then the IDS check
and the bus handoff.  The returned option is the frame passed to
`bus.send`, `none` when the rate limiter blocked it. -/
def controller_send (E mac : List ℕ → List ℕ) (iv : List ℕ)
    (c : CANController) (s : SecurityManager) (f : CANFrame) (now : ℚ) :
    CANController × SecurityManager × Option CANFrame :=
  send_gate c (send_crypto E mac iv c s f now).2
    (send_crypto E mac iv c s f now).1 now

/-- The crypto stages change only the frame payload and the message
counters: the fields the later checks read are untouched. -/
theorem send_crypto_fields (E mac : List ℕ → List ℕ) (iv : List ℕ)
    (c : CANController) (s : SecurityManager) (f : CANFrame) (now : ℚ) :
    (send_crypto E mac iv c s f now).2.rate_windows = s.rate_windows ∧
    (send_crypto E mac iv c s f now).2.rate_limit_threshold =
      s.rate_limit_threshold ∧
    (send_crypto E mac iv c s f now).2.message_baseline = s.message_baseline ∧
    (send_crypto E mac iv c s f now).2.learning_phase = s.learning_phase ∧
    (send_crypto E mac iv c s f now).2.learning_samples = s.learning_samples ∧
    (send_crypto E mac iv c s f now).2.rate_limiting = s.rate_limiting ∧
    (send_crypto E mac iv c s f now).2.ids = s.ids ∧
    (send_crypto E mac iv c s f now).1.arbitration_id = f.arbitration_id := by
  by_cases he : s.encryption = true <;> by_cases ha : s.authentication = true <;>
    simp [send_crypto, he, ha]

/-- Subscription processing at the end of `CANController.receive`
(lines 356-373): latency bookkeeping, the latency health thresholds
and the log append. -/
def receive_process (c : CANController) (f : CANFrame) (now : ℚ) :
    CANController :=
  if f.arbitration_id ∈ c.subscriptions then
    let latency := (now - f.send_time) * 1000
    let hist := pushBounded 1000 c.latency_history latency
    let c1 := { c with latency_history := hist }
    let c2 :=
      if f.arbitration_id ∈ CRITICAL_IDS ∧ LATENCY_CRITICAL < latency then
        { c1 with health_status := Health.warning }
      else if f.arbitration_id ∈ SAFETY_IDS ∧ LATENCY_SAFETY < latency then
        { c1 with health_status := Health.warning }
      else c1
    { c2 with log := c2.log ++
        [⟨now, f.arbitration_id, latency, 0, f.source⟩] }
  else c

/-- Decryption stage of `CANController.receive` (lines 344-354). -/
def receive_after_auth (Df : List ℕ → List ℕ) (c : CANController)
    (s : SecurityManager) (f : CANFrame) (now : ℚ) (data : List ℕ) :
    CANController :=
  if s.encryption && f.encrypted then
    match decryptBytes Df data with
    | some _ => receive_process c f now
    | none =>
      let ev : AttackEvent := ⟨now, AttackEventType.decryption_failed, f.arbitration_id⟩
      { c with
          attack_events := c.attack_events ++ [ev],
          health_status := Health.warning }
  else receive_process c f now

/-- `CANController.receive` (lines 323-373): verify and strip the MAC
first (when the measure is enabled and the frame is marked), aborting
on failure; then decrypt (same pattern); then process the subscribed
frame. -/
def controller_receive (Df mac : List ℕ → List ℕ) (c : CANController)
    (s : SecurityManager) (f : CANFrame) (now : ℚ) : CANController :=
  if s.authentication && f.authenticated then
    let vr := verify_hmac_bytes mac f.data
    if vr.2 then receive_after_auth Df c s f now vr.1
    else
      let ev : AttackEvent := ⟨now, AttackEventType.authentication_failed, f.arbitration_id⟩
      { c with
          attack_events := c.attack_events ++ [ev],
          health_status := Health.warning }
  else receive_after_auth Df c s f now f.data

/-! ## Send pipeline properties -/

/-- The window as `check_rate_limit` rewrites it (line 147). -/
def rl_window (rw : List (ℕ × List ℚ)) (arb_id : ℕ) (now : ℚ) : List ℚ :=
  pushBounded 100 (lookupD rw arb_id []) now

/-- The count of window entries of the trailing second (line 150). -/
def rl_recent (rw : List (ℕ × List ℚ)) (arb_id : ℕ) (now : ℚ) : ℕ :=
  ((rl_window rw arb_id now).filter (fun t => now - t < 1)).length

/-- Closed form of `check_rate_limit`, separating the branch condition
from the state. -/
theorem check_rate_limit_eq (s : SecurityManager) (arb_id : ℕ) (now : ℚ) :
    check_rate_limit s arb_id now =
      (if s.rate_limit_threshold < rl_recent s.rate_windows arb_id now then
        ({ s with
            rate_windows := setD s.rate_windows arb_id
              (rl_window s.rate_windows arb_id now),
            stats := { s.stats with rate_limit_violations :=
              s.stats.rate_limit_violations + 1 } },
         false, rl_recent s.rate_windows arb_id now)
      else
        ({ s with
            rate_windows := setD s.rate_windows arb_id
              (rl_window s.rate_windows arb_id now) },
         true, rl_recent s.rate_windows arb_id now)) := by
  simp only [rl_recent, rl_window]
  unfold check_rate_limit
  by_cases h : s.rate_limit_threshold <
      ((pushBounded 100 (lookupD s.rate_windows arb_id []) now).filter
        (fun t => now - t < 1)).length <;>
    simp [h]

/-- The verdict and metric of `check_anomaly` depend only on the
learning flag, the baselines, the rate windows and the samples (the
counters do not influence it). -/
theorem check_anomaly_verdict_congr (s s' : SecurityManager) (arb_id : ℕ)
    (now : ℚ) (hw : s.rate_windows = s'.rate_windows)
    (hb : s.message_baseline = s'.message_baseline)
    (hl : s.learning_phase = s'.learning_phase)
    (hs : s.learning_samples = s'.learning_samples) :
    (check_anomaly s arb_id now).2 = (check_anomaly s' arb_id now).2 := by
  unfold check_anomaly
  rw [hw, hb, hl, hs]
  by_cases hlp : s'.learning_phase = true
  · simp [hlp]
  · simp only [Bool.not_eq_true] at hlp
    simp only [hlp, Bool.false_eq_true, if_false]
    cases lookupO s'.message_baseline arb_id with
    | none => rfl
    | some b =>
      by_cases hz : b.avg_interval = 0
      · simp [hz]
      · by_cases h2 : 2 < ((lookupD s'.rate_windows arb_id []).filter
            (fun t => now - t < 1)).length
        · by_cases ha : (intervals ((lookupD s'.rate_windows arb_id []).filter
              (fun t => now - t < 1))).sum /
                ((intervals ((lookupD s'.rate_windows arb_id []).filter
                  (fun t => now - t < 1))).length : ℚ) < b.avg_interval / 3 <;>
            simp [hz, h2, ha]
        · simp [hz, h2]

/-- Behaviour of the rate-limit gate and IDS stage, for any manager
state `s1` that agrees with `s` on everything except possibly the
counters (the counters never influence the verdicts). -/
theorem send_gate_spec (c : CANController) (s s1 : SecurityManager)
    (f1 : CANFrame) (now : ℚ)
    (hw : s1.rate_windows = s.rate_windows)
    (ht : s1.rate_limit_threshold = s.rate_limit_threshold)
    (hb : s1.message_baseline = s.message_baseline)
    (hlp : s1.learning_phase = s.learning_phase)
    (hls : s1.learning_samples = s.learning_samples)
    (hrlf : s1.rate_limiting = s.rate_limiting)
    (hidf : s1.ids = s.ids) :
    (s.rate_limiting = true →
      s.rate_limit_threshold < rl_recent s.rate_windows f1.arbitration_id now →
      (send_gate c s1 f1 now).2.2 = none ∧
      (send_gate c s1 f1 now).1.attack_events =
        c.attack_events ++ [⟨now, AttackEventType.rate_limit_violation
          (rl_recent s.rate_windows f1.arbitration_id now), f1.arbitration_id⟩] ∧
      (send_gate c s1 f1 now).1.security_overhead_history =
        c.security_overhead_history) ∧
    ((s.rate_limiting = true →
        ¬ s.rate_limit_threshold < rl_recent s.rate_windows f1.arbitration_id now) →
      (send_gate c s1 f1 now).2.2 = some f1 ∧
      (send_gate c s1 f1 now).1.security_overhead_history =
        pushBounded 1000 c.security_overhead_history 0 ∧
      (s.ids = true →
        (check_anomaly
            { s with rate_windows :=
                if s.rate_limiting = true then
                  setD s.rate_windows f1.arbitration_id (rl_window s.rate_windows f1.arbitration_id now)
                else s.rate_windows }
            f1.arbitration_id now).2.1 = false →
        (send_gate c s1 f1 now).1.attack_events =
          c.attack_events ++
            [⟨now, AttackEventType.anomaly_detected, f1.arbitration_id⟩])) := by
  unfold send_gate
  rw [hrlf]
  by_cases hrl : s.rate_limiting = true
  · simp only [hrl, if_true, reduceIte]
    rw [check_rate_limit_eq]
    have hcond : (s1.rate_limit_threshold <
        rl_recent s1.rate_windows f1.arbitration_id now) ↔
        (s.rate_limit_threshold <
          rl_recent s.rate_windows f1.arbitration_id now) := by
      rw [hw, ht]
    by_cases hc : s.rate_limit_threshold <
        rl_recent s.rate_windows f1.arbitration_id now
    · rw [if_pos (hcond.mpr hc)]
      constructor
      · intro _ _
        rw [hw]
        exact ⟨rfl, rfl, rfl⟩
      · intro hok
        exact absurd hc (by simpa using hok)
    · rw [if_neg (fun h => hc (hcond.mp h))]
      constructor
      · intro _ hfail
        exact absurd hfail hc
      · intro _
        unfold send_tail
        by_cases hids : s.ids = true
        · simp only [hidf, hids, if_true, reduceIte]
          have hcongr := check_anomaly_verdict_congr
            { s1 with rate_windows := setD s1.rate_windows f1.arbitration_id (rl_window s1.rate_windows f1.arbitration_id now) }
            { s with rate_windows := setD s.rate_windows f1.arbitration_id (rl_window s.rate_windows f1.arbitration_id now) }
            f1.arbitration_id now (by simp [hw]) (by simpa using hb)
            (by simpa using hlp) (by simpa using hls)
          have hv := congrArg Prod.fst hcongr
          simp only at hv
          refine ⟨by simp, ?_, ?_⟩
          · split <;> rfl
          · intro _ hanom
            simp only [hidf, hids, hrl] at hv
            have hfv := hv.trans hanom
            rw [hfv]
            simp
        · have hids0 : s.ids = false := by
            cases h : s.ids
            · rfl
            · exact absurd h hids
          simp only [hidf, hids0, Bool.false_eq_true, if_false, reduceIte]
          exact ⟨by simp, by simp, fun hi => hi.elim⟩
  · have hrl0 : s.rate_limiting = false := by
      cases h : s.rate_limiting
      · rfl
      · exact absurd h hrl
    simp only [hrl0, Bool.false_eq_true, if_false, reduceIte]
    refine ⟨fun h => h.elim, fun _ => ?_⟩
    unfold send_tail
    by_cases hids : s.ids = true
    · have hids1 : s1.ids = true := by rw [hidf]; exact hids
      simp only [hids1, if_true, reduceIte]
      have hcongr := check_anomaly_verdict_congr s1
        { s with rate_windows := s.rate_windows }
        f1.arbitration_id now (by simpa using hw) (by simpa using hb)
        (by simpa using hlp) (by simpa using hls)
      have hv := congrArg Prod.fst hcongr
      simp only at hv
      refine ⟨by simp, ?_, ?_⟩
      · split <;> rfl
      · intro _ hanom
        simp only [hrl0] at hv
        have hfv : (check_anomaly s1 f1.arbitration_id now).2.1 = false :=
          hv.trans hanom
        rw [hfv]
        simp
    · have hids1 : s1.ids = false := by
        rw [hidf]
        cases h : s.ids
        · rfl
        · exact absurd h hids
      simp only [hids1, Bool.false_eq_true, if_false, reduceIte]
      exact ⟨by simp, by simp, fun hi _ => absurd hi hids⟩

/-- C2: in `CANController.send`, a rate-limit check failure blocks
transmission entirely — the frame is discarded, a
`rate_limit_violation` event is logged and no frame is handed to the
bus — whereas an IDS check failure only logs an `anomaly_detected`
event and the frame is still handed to the bus.  The anomaly
hypothesis is stated on the manager state as it stands at the IDS
check (the rate window already updated when rate limiting is on). -/
theorem controller_send_rate_blocks_ids_does_not
    (E mac : List ℕ → List ℕ) (iv : List ℕ) (c : CANController)
    (s : SecurityManager) (f : CANFrame) (now : ℚ) :
    (s.rate_limiting = true →
      s.rate_limit_threshold < rl_recent s.rate_windows f.arbitration_id now →
      (controller_send E mac iv c s f now).2.2 = none ∧
      (controller_send E mac iv c s f now).1.attack_events =
        c.attack_events ++ [⟨now, AttackEventType.rate_limit_violation
          (rl_recent s.rate_windows f.arbitration_id now), f.arbitration_id⟩]) ∧
    ((s.rate_limiting = true →
        ¬ s.rate_limit_threshold < rl_recent s.rate_windows f.arbitration_id now) →
      (∃ g, (controller_send E mac iv c s f now).2.2 = some g) ∧
      (s.ids = true →
        (check_anomaly
            { s with rate_windows :=
                if s.rate_limiting = true then
                  setD s.rate_windows f.arbitration_id (rl_window s.rate_windows f.arbitration_id now)
                else s.rate_windows }
            f.arbitration_id now).2.1 = false →
        (controller_send E mac iv c s f now).1.attack_events =
          c.attack_events ++
            [⟨now, AttackEventType.anomaly_detected, f.arbitration_id⟩])) := by
  obtain ⟨hw, ht, hb, hlp, hls, hrlf, hidf, hid⟩ :=
    send_crypto_fields E mac iv c s f now
  have spec := send_gate_spec c s (send_crypto E mac iv c s f now).2
    (send_crypto E mac iv c s f now).1 now hw ht hb hlp hls hrlf hidf
  rw [hid] at spec
  exact ⟨fun h1 h2 => ⟨(spec.1 h1 h2).1, (spec.1 h1 h2).2.1⟩,
    fun hok => ⟨⟨_, (spec.2 hok).1⟩,
      fun hi hanom => (spec.2 hok).2.2 hi hanom⟩⟩

/-- Concrete witness: a full rate window blocks the send; with only
IDS on and an anomalous burst, the frame is still sent and the
anomaly event is logged. -/
theorem controller_send_rate_blocks_ids_does_not_witness :
    ((controller_send (fun x => x) (fun x => x) [] {}
        { rate_limiting := true,
          rate_windows := [(0x100, List.replicate 21 (0 : ℚ))] }
        { arbitration_id := 0x100, data := [1] } 0).2.2 = none) ∧
    (∃ g, (controller_send (fun x => x) (fun x => x) [] {}
        { ids := true, learning_phase := false,
          message_baseline := [(5, ⟨20, 1⟩)],
          rate_windows := [(5, [0, 1/100, 2/100])] }
        { arbitration_id := 5, data := [1] } (3/100)).2.2 = some g) ∧
    ((controller_send (fun x => x) (fun x => x) [] {}
        { ids := true, learning_phase := false,
          message_baseline := [(5, ⟨20, 1⟩)],
          rate_windows := [(5, [0, 1/100, 2/100])] }
        { arbitration_id := 5, data := [1] } (3/100)).1.attack_events =
      [⟨3/100, AttackEventType.anomaly_detected, 5⟩]) := by
  refine ⟨?_, ?_, ?_⟩
  · exact ((controller_send_rate_blocks_ids_does_not (fun x => x) (fun x => x)
      [] {}
      { rate_limiting := true,
        rate_windows := [(0x100, List.replicate 21 (0 : ℚ))] }
      { arbitration_id := 0x100, data := [1] } 0).1 rfl
      (by norm_num [rl_recent, rl_window, pushBounded, lookupD, List.find?])).1
  · exact ((controller_send_rate_blocks_ids_does_not (fun x => x) (fun x => x)
      [] {}
      { ids := true, learning_phase := false,
        message_baseline := [(5, ⟨20, 1⟩)],
        rate_windows := [(5, [0, 1/100, 2/100])] }
      { arbitration_id := 5, data := [1] } (3/100)).2 (by simp)).1
  · exact ((controller_send_rate_blocks_ids_does_not (fun x => x) (fun x => x)
      [] {}
      { ids := true, learning_phase := false,
        message_baseline := [(5, ⟨20, 1⟩)],
        rate_windows := [(5, [0, 1/100, 2/100])] }
      { arbitration_id := 5, data := [1] } (3/100)).2 (by simp)).2 rfl
      (by norm_num [check_anomaly, lookupO, lookupD, intervals, List.find?])

/-- C5 (corrected): the summed per-stage overhead is appended to the
controller's overhead history only when the frame is not blocked by
the rate limiter; a rate-limit failure returns before the append, so
the history is unchanged on that path. -/
theorem controller_send_overhead_history
    (E mac : List ℕ → List ℕ) (iv : List ℕ) (c : CANController)
    (s : SecurityManager) (f : CANFrame) (now : ℚ) :
    (s.rate_limiting = true →
      s.rate_limit_threshold < rl_recent s.rate_windows f.arbitration_id now →
      (controller_send E mac iv c s f now).1.security_overhead_history =
        c.security_overhead_history) ∧
    ((s.rate_limiting = true →
        ¬ s.rate_limit_threshold < rl_recent s.rate_windows f.arbitration_id now) →
      (controller_send E mac iv c s f now).1.security_overhead_history =
        pushBounded 1000 c.security_overhead_history 0) := by
  obtain ⟨hw, ht, hb, hlp, hls, hrlf, hidf, hid⟩ :=
    send_crypto_fields E mac iv c s f now
  have spec := send_gate_spec c s (send_crypto E mac iv c s f now).2
    (send_crypto E mac iv c s f now).1 now hw ht hb hlp hls hrlf hidf
  rw [hid] at spec
  exact ⟨fun h1 h2 => (spec.1 h1 h2).2.2, fun hok => (spec.2 hok).2.1⟩

/-- Witness: with every measure off, one send appends one (zero)
overhead entry. -/
theorem controller_send_overhead_history_witness :
    (controller_send (fun x => x) (fun x => x) [] {} {}
      { arbitration_id := 0x100, data := [1] } 0).1.security_overhead_history =
      pushBounded 1000 [] 0 :=
  (controller_send_overhead_history (fun x => x) (fun x => x) [] {} {}
    { arbitration_id := 0x100, data := [1] } 0).2 (by simp)

/-- Twenty сends at one instant starting from a fresh controller and a
manager with rate limiting on: the state reached right before the
blocked send. -/
def c5_sendN : ℕ → CANController × SecurityManager
  | 0 => ({}, { rate_limiting := true })
  | n + 1 =>
    let p := c5_sendN n
    let r := controller_send (fun x => x) (fun x => x) [] p.1 p.2
      { arbitration_id := 0x100, data := [1] } 0
    (r.1, r.2.1)

/-- C5 counterexample: on the 21st same-instant send the rate limiter
blocks the frame and the overhead history is not appended (it stays at
the 20 entries of the allowed sends), refuting the claim that the
overhead is recorded regardless of outcome. -/
theorem controller_send_overhead_history_counterexample :
    (controller_send (fun x => x) (fun x => x) [] (c5_sendN 20).1
        (c5_sendN 20).2 { arbitration_id := 0x100, data := [1] } 0).2.2 =
      none ∧
    (c5_sendN 20).1.security_overhead_history.length = 20 ∧
    (controller_send (fun x => x) (fun x => x) [] (c5_sendN 20).1
        (c5_sendN 20).2 { arbitration_id := 0x100, data := [1] }
        0).1.security_overhead_history.length = 20 := by
  set_option maxRecDepth 4000 in
  norm_num [c5_sendN, controller_send, send_crypto, send_gate, send_tail,
    check_rate_limit, pushBounded, lookupD, setD, List.find?, List.eraseP]

/-! ## Attack statistics and attack models (`can_bus_attacks.py`) -/

/-- `AttackStatistics` (lines 8-30). -/
structure AttackStatistics where
  attack_type : String := ""
  attempts : ℕ := 0
  successful : ℕ := 0
  blocked : ℕ := 0
  detected : ℕ := 0
  target_ids : List ℕ := []
deriving DecidableEq, Repr

/-- `AttackStatistics.success_rate` (lines 22-25). -/
def success_rate (st : AttackStatistics) : ℚ :=
  if st.attempts = 0 then 0 else (st.successful : ℚ) / st.attempts * 100

/-- `AttackStatistics.detection_rate` (lines 27-30). -/
def detection_rate (st : AttackStatistics) : ℚ :=
  if st.attempts = 0 then 0 else (st.detected : ℚ) / st.attempts * 100

/-- `SecurityManager.toggle_measure` (lines 82-87). -/
def toggle_measure (s : SecurityManager) (measure : String) (enabled : Bool) :
    SecurityManager × Bool :=
  if measure = "encryption" then ({ s with encryption := enabled }, true)
  else if measure = "authentication" then
    ({ s with authentication := enabled }, true)
  else if measure = "rate_limiting" then
    ({ s with rate_limiting := enabled }, true)
  else if measure = "ids" then ({ s with ids := enabled }, true)
  else (s, false)

/-- One spoofing attempt for one target (SpoofingAttack.execute,
lines 211-244): with authentication on, count blocked and detected and
drop; else with encryption on, count detected (only the local flag
stops the send, the blocked counter is not touched) and drop;
otherwise send and count successful. -/
def spoofAttempt (s : SecurityManager) (st : AttackStatistics)
    (arb_id : ℕ) (mdata : List ℕ) : AttackStatistics × Option CANFrame :=
  let st1 := { st with attempts := st.attempts + 1 }
  if s.authentication then
    ({ st1 with blocked := st1.blocked + 1, detected := st1.detected + 1 }, none)
  else if s.encryption then
    ({ st1 with detected := st1.detected + 1 }, none)
  else
    ({ st1 with successful := st1.successful + 1 },
     some { arbitration_id := arb_id, data := mdata, source := "ATTACKER" })

/-- A run of spoofing attempts over a list of targets (the loop of
`SpoofingAttack.execute`); also collects the frames actually sent. -/
def spoofRun (s : SecurityManager) :
    AttackStatistics → List (ℕ × List ℕ) → AttackStatistics × List CANFrame
  | st, [] => (st, [])
  | st, t :: ts =>
    let r := spoofAttempt s st t.1 t.2
    let rest := spoofRun s r.1 ts
    (rest.1, r.2.toList ++ rest.2)

/-- One bus-flooding attempt (BusFloodingAttack.execute,
lines 141-175): rate limiting may block and detect; IDS (when not
blocked) may detect without blocking; an unblocked attempt sends the
flood frame and counts successful. -/
def floodAttempt (s : SecurityManager) (st : AttackStatistics) (now : ℚ) :
    SecurityManager × AttackStatistics × Option CANFrame :=
  let st1 := { st with attempts := st.attempts + 1 }
  let p :=
    if s.rate_limiting then
      let r := check_rate_limit s 0x000 now
      if r.2.1 then (r.1, st1, false)
      else
        (r.1,
         { st1 with blocked := st1.blocked + 1, detected := st1.detected + 1 },
         true)
    else (s, st1, false)
  let q :=
    if p.1.ids && !p.2.2 then
      let r := check_anomaly p.1 0x000 now
      if r.2.1 then (r.1, p.2.1)
      else (r.1, { p.2.1 with detected := p.2.1.detected + 1 })
    else (p.1, p.2.1)
  if p.2.2 then (q.1, q.2, none)
  else
    (q.1, { q.2 with successful := q.2.successful + 1 },
     some { arbitration_id := 0x000, data := List.replicate 8 0xFF,
            source := "ATTACKER" })

/-- One replay attempt (ReplayAttack.execute, lines 284-322): the
rate-limit check can block and detect; when not blocked, the IDS check
can add a detection and, independently, authentication adds a
detect-only mark; an unblocked attempt sends the captured frame and
counts successful. -/
def replayAttempt (s : SecurityManager) (st : AttackStatistics)
    (arb_id : ℕ) (cdata : List ℕ) (now : ℚ) :
    SecurityManager × AttackStatistics × Option CANFrame :=
  let st1 := { st with attempts := st.attempts + 1 }
  let p :=
    if s.rate_limiting then
      let r := check_rate_limit s arb_id now
      if r.2.1 then (r.1, st1, false)
      else
        (r.1,
         { st1 with blocked := st1.blocked + 1, detected := st1.detected + 1 },
         true)
    else (s, st1, false)
  let q :=
    if p.1.ids && !p.2.2 then
      let r := check_anomaly p.1 arb_id now
      if r.2.1 then (r.1, p.2.1)
      else (r.1, { p.2.1 with detected := p.2.1.detected + 1 })
    else (p.1, p.2.1)
  let st3 :=
    if q.1.authentication && !p.2.2 then
      { q.2 with detected := q.2.detected + 1 }
    else q.2
  if p.2.2 then (q.1, st3, none)
  else
    (q.1, { st3 with successful := st3.successful + 1 },
     some { arbitration_id := arb_id, data := cdata, source := "ATTACKER" })

/-- C3: with the authentication measure enabled, every spoofing
attempt is counted both blocked and detected, no frame is ever sent,
and the successful counter never moves — so a run that starts at
`successful = 0` ends at `successful = 0` no matter how many attempts
it makes. -/
theorem spoofing_authentication_blocks_all (s : SecurityManager)
    (h : s.authentication = true) :
    ∀ (targets : List (ℕ × List ℕ)) (st : AttackStatistics),
      (spoofRun s st targets).1.successful = st.successful ∧
      (spoofRun s st targets).1.blocked = st.blocked + targets.length ∧
      (spoofRun s st targets).1.detected = st.detected + targets.length ∧
      (spoofRun s st targets).1.attempts = st.attempts + targets.length ∧
      (spoofRun s st targets).2 = [] := by
  intro targets
  induction targets with
  | nil => intro st; simp [spoofRun]
  | cons t ts ih =>
    intro st
    simp only [spoofRun, spoofAttempt, h, if_true, reduceIte]
    obtain ⟨h1, h2, h3, h4, h5⟩ := ih ⟨st.attack_type, st.attempts + 1,
      st.successful, st.blocked + 1, st.detected + 1, st.target_ids⟩
    refine ⟨?_, ?_, ?_, ?_, ?_⟩ <;> simp_all <;> omega

/-- Witness: the three source spoofing targets against an
authentication-only configuration: zero successful, three blocked and
detected, nothing sent. -/
theorem spoofing_authentication_blocks_all_witness :
    ({ authentication := true } : SecurityManager).authentication = true ∧
    (spoofRun { authentication := true } {}
      [(0x0A0, [0]), (0x300, [0]), (0x301, [0])]).1.successful = 0 ∧
    (spoofRun { authentication := true } {}
      [(0x0A0, [0]), (0x300, [0]), (0x301, [0])]).2 = [] := by
  refine ⟨rfl, ?_, ?_⟩
  · exact (spoofing_authentication_blocks_all { authentication := true } rfl
      [(0x0A0, [0]), (0x300, [0]), (0x301, [0])] {}).1
  · exact (spoofing_authentication_blocks_all { authentication := true } rfl
      [(0x0A0, [0]), (0x300, [0]), (0x301, [0])] {}).2.2.2.2

/-- C6 (corrected): with authentication off and encryption on, a
spoofing attempt is counted as detected and the frame is not sent
(and successful does not move), but the blocked statistics counter is
not incremented — only the local flag suppresses the send. -/
theorem spoofing_encryption_detected_not_blocked_counter
    (s : SecurityManager) (st : AttackStatistics) (arb_id : ℕ)
    (mdata : List ℕ) (ha : s.authentication = false)
    (he : s.encryption = true) :
    (spoofAttempt s st arb_id mdata).1.attempts = st.attempts + 1 ∧
    (spoofAttempt s st arb_id mdata).1.detected = st.detected + 1 ∧
    (spoofAttempt s st arb_id mdata).1.blocked = st.blocked ∧
    (spoofAttempt s st arb_id mdata).1.successful = st.successful ∧
    (spoofAttempt s st arb_id mdata).2 = none := by
  simp [spoofAttempt, ha, he]

/-- Witness for the encryption-only spoofing attempt behaviour. -/
theorem spoofing_encryption_detected_not_blocked_counter_witness :
    (spoofAttempt { encryption := true } {} 0x0A0 [0]).1.detected = 0 + 1 ∧
    (spoofAttempt { encryption := true } {} 0x0A0 [0]).1.blocked = 0 ∧
    (spoofAttempt { encryption := true } {} 0x0A0 [0]).2 = none := by
  have h := spoofing_encryption_detected_not_blocked_counter
    { encryption := true } {} 0x0A0 [0] rfl rfl
  exact ⟨h.2.1, h.2.2.1, h.2.2.2.2⟩

/-- C6 counterexample: at the concrete encryption-only configuration
the attempt is detected and dropped, yet the blocked counter stays 0 —
it is not incremented as the claim states. -/
theorem spoofing_encryption_blocked_counter_counterexample :
    (spoofAttempt { encryption := true } {} 0x0A0 [0]).1.detected = 1 ∧
    (spoofAttempt { encryption := true } {} 0x0A0 [0]).2 = none ∧
    (spoofAttempt { encryption := true } {} 0x0A0 [0]).1.successful = 0 ∧
    ¬ (spoofAttempt { encryption := true } {} 0x0A0 [0]).1.blocked = 1 := by
  refine ⟨?_, ?_, ?_, ?_⟩ <;> simp [spoofAttempt]

/-- C4 (corrected): `success_rate` is always within [0, 100] on the
reachable states (every attack attempt preserves
`successful ≤ attempts`), both rates are 0 at `attempts = 0` and both
are never negative.  The analogous bound for `detection_rate` fails —
see the replay counterexample — so it is not part of this statement. -/
theorem attack_rates_bounds :
    (∀ st : AttackStatistics, st.successful ≤ st.attempts →
      0 ≤ success_rate st ∧ success_rate st ≤ 100) ∧
    (∀ st : AttackStatistics, 0 ≤ detection_rate st) ∧
    (∀ st : AttackStatistics, st.attempts = 0 →
      success_rate st = 0 ∧ detection_rate st = 0) ∧
    (∀ (s : SecurityManager) (st : AttackStatistics) (arb_id : ℕ)
        (d : List ℕ), st.successful ≤ st.attempts →
      (spoofAttempt s st arb_id d).1.successful ≤
        (spoofAttempt s st arb_id d).1.attempts) ∧
    (∀ (s : SecurityManager) (st : AttackStatistics) (now : ℚ),
      st.successful ≤ st.attempts →
      (floodAttempt s st now).2.1.successful ≤
        (floodAttempt s st now).2.1.attempts) ∧
    (∀ (s : SecurityManager) (st : AttackStatistics) (arb_id : ℕ)
        (d : List ℕ) (now : ℚ), st.successful ≤ st.attempts →
      (replayAttempt s st arb_id d now).2.1.successful ≤
        (replayAttempt s st arb_id d now).2.1.attempts) := by
  refine ⟨?_, ?_, ?_, ?_, ?_, ?_⟩
  · intro st hle
    by_cases h : st.attempts = 0
    · simp [success_rate, h]
    · have hpos : (0 : ℚ) < st.attempts := by
        exact_mod_cast Nat.pos_of_ne_zero h
      have hcast : (st.successful : ℚ) ≤ st.attempts := by exact_mod_cast hle
      rw [success_rate, if_neg h]
      constructor
      · positivity
      · have h1 : (st.successful : ℚ) / st.attempts ≤ 1 :=
          (div_le_one hpos).mpr hcast
        nlinarith
  · intro st
    by_cases h : st.attempts = 0
    · simp [detection_rate, h]
    · have hpos : (0 : ℚ) < st.attempts := by
        exact_mod_cast Nat.pos_of_ne_zero h
      rw [detection_rate, if_neg h]
      positivity
  · intro st h
    simp [success_rate, detection_rate, h]
  · intro s st arb_id d hle
    unfold spoofAttempt
    split_ifs <;> simp <;> omega
  · intro s st now hle
    unfold floodAttempt
    simp only [apply_ite Prod.snd, apply_ite Prod.fst]
    split_ifs <;> simp_all
    all_goals omega
  · intro s st arb_id d now hle
    unfold replayAttempt
    simp only [apply_ite Prod.snd, apply_ite Prod.fst]
    split_ifs <;> simp_all
    all_goals omega

/-- Witness instantiating the rate bounds and the preservation steps
at concrete statistics. -/
theorem attack_rates_bounds_witness :
    (0 ≤ success_rate ⟨"spoofing", 2, 1, 0, 0, []⟩ ∧
      success_rate ⟨"spoofing", 2, 1, 0, 0, []⟩ ≤ 100) ∧
    (success_rate ⟨"replay", 0, 0, 0, 0, []⟩ = 0 ∧
      detection_rate ⟨"replay", 0, 0, 0, 0, []⟩ = 0) ∧
    ((spoofAttempt {} ⟨"spoofing", 2, 1, 0, 0, []⟩ 0x0A0 [0]).1.successful ≤
      (spoofAttempt {} ⟨"spoofing", 2, 1, 0, 0, []⟩ 0x0A0 [0]).1.attempts) ∧
    ((floodAttempt {} ⟨"bus_flooding", 2, 1, 0, 0, []⟩ 0).2.1.successful ≤
      (floodAttempt {} ⟨"bus_flooding", 2, 1, 0, 0, []⟩ 0).2.1.attempts) ∧
    ((replayAttempt {} ⟨"replay", 2, 1, 0, 0, []⟩ 0x100 [3] 0).2.1.successful ≤
      (replayAttempt {} ⟨"replay", 2, 1, 0, 0, []⟩ 0x100 [3] 0).2.1.attempts) :=
  ⟨attack_rates_bounds.1 ⟨"spoofing", 2, 1, 0, 0, []⟩ (by decide),
   attack_rates_bounds.2.2.1 ⟨"replay", 0, 0, 0, 0, []⟩ rfl,
   attack_rates_bounds.2.2.2.1 {} ⟨"spoofing", 2, 1, 0, 0, []⟩ 0x0A0 [0]
     (by decide),
   attack_rates_bounds.2.2.2.2.1 {} ⟨"bus_flooding", 2, 1, 0, 0, []⟩ 0
     (by decide),
   attack_rates_bounds.2.2.2.2.2 {} ⟨"replay", 2, 1, 0, 0, []⟩ 0x100 [3] 0
     (by decide)⟩

/-- Learning run: with IDS on, `n` legitimate sends of id 0x100 at
times `t0, t0 + 1, ..., t0 + n - 1` each invoke the IDS check
(`check_anomaly`, as the controller send path does while only IDS is
enabled). -/
def c4_stepsFrom (s : SecurityManager) (t0 : ℕ) : ℕ → SecurityManager
  | 0 => s
  | n + 1 => (check_anomaly (c4_stepsFrom s t0 n) 0x100 ((t0 + n : ℕ) : ℚ)).1

/-- Learning steps compose: `m + n` steps from `t0` are `n` steps from
`t0 + m` after `m` steps from `t0`. -/
theorem c4_stepsFrom_add (s : SecurityManager) (t0 m n : ℕ) :
    c4_stepsFrom s t0 (m + n) = c4_stepsFrom (c4_stepsFrom s t0 m) (t0 + m) n := by
  induction n with
  | zero => rfl
  | succ k ih =>
    have h : m + (k + 1) = (m + k) + 1 := by omega
    rw [h]
    simp [c4_stepsFrom, ih, Nat.add_assoc]

/-- Manager state after the first five learning sends. -/
def c4_S5 : SecurityManager :=
  { ids := true, learning_samples := [(0x100, [0, 1, 2, 3, 4])] }

/-- Manager state after ten learning sends. -/
def c4_S10 : SecurityManager :=
  { ids := true, learning_samples := [(0x100, [0, 1, 2, 3, 4, 5, 6, 7, 8, 9])] }

/-- Manager state after fifteen learning sends. -/
def c4_S15 : SecurityManager :=
  { ids := true,
    learning_samples :=
      [(0x100, [0, 1, 2, 3, 4, 5, 6, 7, 8, 9, 10, 11, 12, 13, 14])] }

/-- Manager state after twenty learning sends: the baseline is set with
average inter-arrival interval 1s. -/
def c4_S20 : SecurityManager :=
  { ids := true,
    message_baseline := [(0x100, ⟨20, 1⟩)],
    learning_samples :=
      [(0x100, [0, 1, 2, 3, 4, 5, 6, 7, 8, 9, 10, 11, 12, 13, 14, 15, 16,
        17, 18, 19])] }

set_option maxHeartbeats 1000000 in
/-- Learning sends at times 0..4. -/
theorem c4_learnA : c4_stepsFrom { ids := true } 0 5 = c4_S5 := by
  norm_num [c4_stepsFrom, c4_S5, check_anomaly, lookupD, setD,
    List.find?, List.eraseP]

set_option maxHeartbeats 1000000 in
/-- Learning sends at times 5..9. -/
theorem c4_learnB : c4_stepsFrom c4_S5 5 5 = c4_S10 := by
  norm_num [c4_stepsFrom, c4_S5, c4_S10, check_anomaly, lookupD, setD,
    List.find?, List.eraseP]

set_option maxHeartbeats 1000000 in
/-- Learning sends at times 10..14. -/
theorem c4_learnC : c4_stepsFrom c4_S10 10 5 = c4_S15 := by
  norm_num [c4_stepsFrom, c4_S10, c4_S15, check_anomaly, lookupD, setD,
    List.find?, List.eraseP]

set_option maxHeartbeats 2000000 in
/-- Learning sends at times 15..19; the twentieth sample computes the
baseline: nineteen unit intervals average to 1. -/
theorem c4_learnD : c4_stepsFrom c4_S15 15 5 = c4_S20 := by
  norm_num [c4_stepsFrom, c4_S15, c4_S20, check_anomaly, lookupD, setD,
    intervals, List.find?, List.eraseP]

/-- The manager state after the full twenty-send learning run. -/
theorem c4_learn_full : c4_stepsFrom { ids := true } 0 20 = c4_S20 := by
  have h1 := c4_stepsFrom_add { ids := true } 0 5 15
  rw [c4_learnA] at h1
  have h2 := c4_stepsFrom_add c4_S5 5 5 10
  rw [c4_learnB] at h2
  have h3 := c4_stepsFrom_add c4_S10 10 5 5
  rw [c4_learnC] at h3
  norm_num at h1 h2 h3
  rw [h1, h2, h3, c4_learnD]

/-- After ending the learning phase and switching rate limiting on,
three legitimate sends at 100, 100.01, 100.02 seconds each run the
rate-limit check followed by the IDS check (the order the controller
send path uses), filling the rate window with closely spaced
timestamps. -/
def c4_windowM : ℕ → SecurityManager
  | 0 =>
    (toggle_measure (finish_learning (c4_stepsFrom { ids := true } 0 20))
      "rate_limiting" true).1
  | n + 1 =>
    (check_anomaly
      (check_rate_limit (c4_windowM n) 0x100 (100 + (n : ℚ) / 100)).1 0x100
      (100 + (n : ℚ) / 100)).1

/-- Manager state entering the burst: learning over, rate limiting
on. -/
def c4_W0 : SecurityManager :=
  { ids := true, rate_limiting := true,
    message_baseline := [(0x100, ⟨20, 1⟩)],
    learning_phase := false,
    learning_samples :=
      [(0x100, [0, 1, 2, 3, 4, 5, 6, 7, 8, 9, 10, 11, 12, 13, 14, 15, 16,
        17, 18, 19])] }

/-- The burst starts from `c4_W0`. -/
theorem c4_window_zero : c4_windowM 0 = c4_W0 := by
  have h : c4_windowM 0 =
      (toggle_measure (finish_learning (c4_stepsFrom { ids := true } 0 20))
        "rate_limiting" true).1 := rfl
  rw [h, c4_learn_full]
  rfl

/-- Manager state after the burst: a three-entry rate window a
hundredth of a second apart (the third send already trips one IDS
anomaly). -/
def c4_W : SecurityManager :=
  { ids := true, rate_limiting := true,
    stats := { anomalies_detected := 1 },
    rate_windows := [(0x100, [100, 100 + 1 / 100, 100 + 2 / 100])],
    message_baseline := [(0x100, ⟨20, 1⟩)],
    learning_phase := false,
    learning_samples :=
      [(0x100, [0, 1, 2, 3, 4, 5, 6, 7, 8, 9, 10, 11, 12, 13, 14, 15, 16,
        17, 18, 19])] }

set_option maxHeartbeats 2000000 in
set_option maxRecDepth 8000 in
/-- Evaluating the three burst sends. -/
theorem c4_window_state : c4_windowM 3 = c4_W := by
  have h : c4_windowM 3 =
      (check_anomaly
        (check_rate_limit
          (check_anomaly
            (check_rate_limit
              (check_anomaly
                (check_rate_limit (c4_windowM 0) 0x100
                  (100 + ((0 : ℕ) : ℚ) / 100)).1 0x100
                (100 + ((0 : ℕ) : ℚ) / 100)).1 0x100
              (100 + ((1 : ℕ) : ℚ) / 100)).1 0x100
            (100 + ((1 : ℕ) : ℚ) / 100)).1 0x100
          (100 + ((2 : ℕ) : ℚ) / 100)).1 0x100
        (100 + ((2 : ℕ) : ℚ) / 100)).1 := rfl
  rw [h, c4_window_zero]
  norm_num [c4_W0, c4_W, check_rate_limit, check_anomaly, pushBounded,
    lookupD, lookupO, setD, intervals, List.find?, List.eraseP]

/-- Manager state after also switching authentication on. -/
def c4_WA : SecurityManager :=
  { authentication := true, rate_limiting := true, ids := true,
    stats := { anomalies_detected := 1 },
    rate_windows := [(0x100, [100, 100 + 1 / 100, 100 + 2 / 100])],
    message_baseline := [(0x100, ⟨20, 1⟩)],
    learning_phase := false,
    learning_samples :=
      [(0x100, [0, 1, 2, 3, 4, 5, 6, 7, 8, 9, 10, 11, 12, 13, 14, 15, 16,
        17, 18, 19])] }

/-- Switching authentication on after the burst yields `c4_WA`. -/
theorem c4_auth_toggle :
    (toggle_measure (c4_windowM 3) "authentication" true).1 = c4_WA := by
  rw [c4_window_state]
  rfl

/-- With authentication also on, one replay attempt at 100.03 seconds:
the IDS anomaly check and the authentication mark each count a
detection for the same single attempt. -/
def c4_replay : SecurityManager × AttackStatistics × Option CANFrame :=
  replayAttempt (toggle_measure (c4_windowM 3) "authentication" true).1
    { attack_type := "replay" } 0x100 [0x0B, 0xB8] (100 + 3 / 100)

set_option maxHeartbeats 2000000 in
set_option maxRecDepth 8000 in
/-- C4 counterexample: a reachable run in which one replay attempt is
counted detected twice (IDS anomaly and authentication), so
`detected > attempts` and the detection rate evaluates to 200, outside
[0, 100]. -/
theorem replay_detection_rate_exceeds_100_counterexample :
    c4_replay.2.1.attempts = 1 ∧ c4_replay.2.1.detected = 2 ∧
    c4_replay.2.1.successful = 1 ∧
    detection_rate c4_replay.2.1 = 200 ∧
    ¬ detection_rate c4_replay.2.1 ≤ 100 := by
  simp only [c4_replay, c4_auth_toggle]
  norm_num [c4_WA, replayAttempt, check_rate_limit, check_anomaly,
    pushBounded, lookupD, lookupO, setD, intervals, detection_rate,
    List.find?, List.eraseP]

/-! ## Receive pipeline: authentication gate (C9) -/

/-- C9 (amended: the MAC check runs only when the authentication
measure is enabled and the frame is marked authenticated): in that
case a verification failure appends exactly one `authentication_failed`
event, sets the controller's health to warning and aborts — the log
and the latency history are untouched and no later stage runs; a
verification success strips the MAC and hands the remaining payload to
the decryption stage. -/
theorem controller_receive_auth_failure_aborts (Df mac : List ℕ → List ℕ)
    (c : CANController) (s : SecurityManager) (f : CANFrame) (now : ℚ)
    (hm : s.authentication = true) (hf : f.authenticated = true) :
    ((verify_hmac_bytes mac f.data).2 = false →
      controller_receive Df mac c s f now =
        { c with
            attack_events := c.attack_events ++
              [⟨now, AttackEventType.authentication_failed, f.arbitration_id⟩],
            health_status := Health.warning } ∧
      (controller_receive Df mac c s f now).log = c.log ∧
      (controller_receive Df mac c s f now).latency_history =
        c.latency_history) ∧
    ((verify_hmac_bytes mac f.data).2 = true →
      controller_receive Df mac c s f now =
        receive_after_auth Df c s f now (f.data.take (f.data.length - 32))) := by
  constructor
  · intro hv
    refine ⟨?_, ?_, ?_⟩ <;>
      simp [controller_receive, hm, hf, hv]
  · intro hv
    have h1 : controller_receive Df mac c s f now =
        receive_after_auth Df c s f now (verify_hmac_bytes mac f.data).1 := by
      simp [controller_receive, hm, hf, hv]
    rw [h1]
    simp [verify_hmac_bytes]

/-- Witness for C9: a frame whose trailing 32 bytes do not match the
MAC is rejected with exactly the event append and the health
downgrade. -/
theorem controller_receive_auth_failure_aborts_witness :
    ({ authentication := true } : SecurityManager).authentication = true ∧
    ({ arbitration_id := 0x0A0, data := List.replicate 33 1,
        authenticated := true } : CANFrame).authenticated = true ∧
    (verify_hmac_bytes (fun _ => List.replicate 32 0)
      (List.replicate 33 1)).2 = false ∧
    controller_receive (fun x => x) (fun _ => List.replicate 32 0) {}
        { authentication := true }
        { arbitration_id := 0x0A0, data := List.replicate 33 1,
          authenticated := true } 0 =
      { ({} : CANController) with
          attack_events := ({} : CANController).attack_events ++
            [⟨0, AttackEventType.authentication_failed, 0x0A0⟩],
          health_status := Health.warning } :=
  ⟨rfl, rfl, by decide,
    ((controller_receive_auth_failure_aborts (fun x => x)
      (fun _ => List.replicate 32 0) {} { authentication := true }
      { arbitration_id := 0x0A0, data := List.replicate 33 1,
        authenticated := true } 0 rfl rfl).1 (by decide)).1⟩

/-- C9 counterexample: with the authentication measure disabled, a
frame that is merely marked authenticated is not verified at all — the
claim's trigger "if the frame is marked authenticated" is not
sufficient.  The same invalid-MAC payload sails through: no event, no
health change, and the processing stages run (latency history and log
are appended). -/
theorem controller_receive_unverified_measure_off_counterexample :
    (verify_hmac_bytes (fun _ => List.replicate 32 0)
      (List.replicate 33 1)).2 = false ∧
    controller_receive (fun x => x) (fun _ => List.replicate 32 0)
        { subscriptions := [0x100] } {}
        { arbitration_id := 0x100, data := List.replicate 33 1,
          authenticated := true } 0 =
      { subscriptions := [0x100],
        log := [⟨0, 0x100, 0, 0, ""⟩],
        latency_history := [0] } := by
  constructor
  · decide
  · norm_num [controller_receive, receive_after_auth, receive_process,
      pushBounded, CRITICAL_IDS, SAFETY_IDS, LATENCY_CRITICAL,
      LATENCY_SAFETY]

/-! ## Encryption round trip and ciphertext tampering (C8) -/

/-- C8 (amended): with a block-cipher pair that is inverse on 16-byte
blocks, decrypting an encryption returns the original payload as
valid; but a single-byte alteration need not make decryption fail:
altering any byte of the prepended IV of a payload of 16 bytes or more
garbles only the first plaintext block, leaves the padding block
intact, and decryption still reports valid. -/
theorem encrypt_decrypt_roundtrip_iv_tamper (E D : List ℕ → List ℕ)
    (hED : ∀ b : List ℕ, b.length = 16 → D (E b) = b)
    (hElen : ∀ b : List ℕ, b.length = 16 → (E b).length = 16)
    (iv : List ℕ) (hiv : iv.length = 16) (d : List ℕ) :
    decryptBytes D (encryptBytes E iv d) = some d ∧
    (16 ≤ d.length → ∀ i < 16, ∀ v,
      (decryptBytes D ((encryptBytes E iv d).set i v)).isSome = true) :=
  ⟨decryptBytes_encryptBytes E D hED hElen iv hiv d,
   fun hd i hi v => decryptBytes_tampered_iv E D hED hElen iv hiv d hd i hi v⟩

/-- Witness for C8 at a concrete involutive byte cipher (XOR with
0x5C): the round trip restores the payload and an IV alteration leaves
decryption reporting valid. -/
theorem encrypt_decrypt_roundtrip_iv_tamper_witness :
    decryptBytes (fun b => b.map (fun x => x ^^^ 92))
        (encryptBytes (fun b => b.map (fun x => x ^^^ 92))
          (List.replicate 16 0) (List.replicate 16 5)) =
      some (List.replicate 16 5) ∧
    (decryptBytes (fun b => b.map (fun x => x ^^^ 92))
        ((encryptBytes (fun b => b.map (fun x => x ^^^ 92))
          (List.replicate 16 0) (List.replicate 16 5)).set 0 1)).isSome =
      true :=
  have h := encrypt_decrypt_roundtrip_iv_tamper
    (fun b => b.map (fun x => x ^^^ 92)) (fun b => b.map (fun x => x ^^^ 92))
    (fun b _ => by simp [List.map_map, Function.comp_def, Nat.xor_cancel_right])
    (fun b hb => by simpa using hb)
    (List.replicate 16 0) (by simp) (List.replicate 16 5)
  ⟨h.1, h.2 (by simp) 0 (by norm_num) 1⟩

/-- C8 counterexample: altering byte 0 of the ciphertext (an IV byte)
does not make decryption fail — it reports valid and returns a payload
that differs from the original, refuting "altering any single byte of
the ciphertext (including the prepended IV) makes decryption fail". -/
theorem ciphertext_iv_tamper_still_valid_counterexample :
    (decryptBytes (fun b => b.map (fun x => x ^^^ 92))
      ((encryptBytes (fun b => b.map (fun x => x ^^^ 92))
        (List.replicate 16 0) (List.replicate 16 5)).set 0 1)).isSome =
      true ∧
    decryptBytes (fun b => b.map (fun x => x ^^^ 92))
      ((encryptBytes (fun b => b.map (fun x => x ^^^ 92))
        (List.replicate 16 0) (List.replicate 16 5)).set 0 1) ≠
      some (List.replicate 16 5) := by
  decide
